import Mathlib

/-!
# Verification of the Sellventory replica-merge engine (`merge_zip.py`)

This file shallowly embeds the merge engine of `merge_zip.py` together with
the parts of its environment that its decisions depend on:

* Python dictionary rows become the record structure `Rec`; SQL `NULL` is
  `Option.none`; Python truthiness of timestamp / string fields is made
  explicit (`truthyI`, `truthyS`).
* The local SQLite connection becomes `Conn`: the list of table rows plus
  the connection-lifetime `total_changes` counter that `_upsert_local`
  consults (`Conn.tc`).
* The filesystem is abstracted into `MergeEnv`: file contents at a path,
  the SHA-1 function (`hashF`, a function of the bytes, modelled with the
  fact that a hex digest is never the empty string), and the result of
  `_resolve_incoming_image_path` for an incoming record.  The local image
  directory is the list of stored file names (`copy2` is tracked at the
  granularity of "a file of this name now exists").
* `_now_ms` is modelled as the value `now` the clock returns during one
  merge pass, and `uuid.uuid4` as a generator `gen : Nat -> String`
  threaded through a call counter.

The `Database` schema adapter (`db.cols`, `db.table`, `db.conn`,
`db.images_dir`) is used by `merge_zip.py` but its definition is not part
of the sources; following the spec (section 4.1) the stores are modelled
in already-normalized form: every logical field is a field of `Rec`, and
`_rows_map` / `_upsert_local` read and write those fields exactly as the
SQL they emit does for the canonical column names.
-/

namespace Sellventory

/-- A Python value stored in one of the mergeable columns: either a string
or an integer (prices, dates and names are compared with `==`/`!=` and
`str(v) == ""` in the source, which this type supports faithfully). -/
inductive Val where
  | str (s : String)
  | int (n : Int)
deriving DecidableEq, Repr

/-- `str(v) == ""` for a non-null Python value: only the empty string. -/
def valStrEmpty : Val → Bool
  | .str s => s == ""
  | .int _ => false

/-- One normalized row, as produced by `_rows_map`: the logical fields of
the spec's Record.  `none` is SQL NULL / a missing key. -/
structure Rec where
  id : String := ""
  name : Option Val := none
  location : Option Val := none
  buy_price : Option Val := none
  sold_price : Option Val := none
  sold_date : Option Val := none
  image_name : Option String := none
  legacy_image : Option String := none
  image_hash : Option String := none
  updated_at : Option Int := none
  deleted_at : Option Int := none
deriving DecidableEq, Repr

/-- Python truthiness of an optional integer: `None` and `0` are falsy. -/
def truthyI : Option Int → Bool
  | none => false
  | some v => v != 0

/-- `x or 0` on an optional integer (used for timestamp comparisons). -/
def orZeroI (o : Option Int) : Int := o.getD 0

/-- Python truthiness of an optional string: `None` and `""` are falsy. -/
def truthyS : Option String → Bool
  | none => false
  | some s => s != ""

/-- Python `a or b` on optional strings: `a` unless it is falsy. -/
def orS (a b : Option String) : Option String := if truthyS a then a else b

/-- `os.path.basename`: everything after the last slash. -/
def basename (p : String) : String :=
  String.mk ((p.toList.reverse.takeWhile (fun c => c != '/')).reverse)

/-- `os.path.splitext(p)[1]`: the extension including the leading dot,
empty when the basename has no dot after its (ignored) leading dots. -/
def extOf (p : String) : String :=
  let b := (basename p).toList
  let core := b.dropWhile (fun c => c == '.')
  if core.contains '.' then
    String.mk ('.' :: (b.reverse.takeWhile (fun c => c != '.')).reverse)
  else ""

/-- `prefer_name or os.path.basename(src)` (Python truthiness: the empty
string falls through to the basename). -/
def preferOrBase (prefer : Option String) (src : String) : String :=
  match prefer with
  | some s => if s == "" then basename src else s
  | none => basename src

/-- The filesystem environment a merge pass runs against. -/
structure MergeEnv where
  /-- bytes of the file at a path, `none` when it cannot be read -/
  content : String → Option String
  /-- the SHA-1 hex digest as a function of the bytes -/
  hashF : String → String
  /-- a hex digest is never the empty string -/
  hashNE : ∀ c, hashF c ≠ ""
  /-- result of `_resolve_incoming_image_path` for an incoming row: the
  existing source path of its image, or `none` -/
  resolveImg : Rec → Option String

/-- `_sha1(path)`: hash of the file's bytes, `none` when unreadable. -/
def sha1 (env : MergeEnv) (p : String) : Option String :=
  (env.content p).map env.hashF

/-- The stored name `_copy_image_into_local` derives:
`hash + ext` when hashing succeeded, otherwise the preferred name. -/
def copyName (env : MergeEnv) (src : String) (prefer : Option String) : String :=
  let h := sha1 env src
  let base := preferOrBase prefer src
  let ext0 := extOf base
  let ext := if ext0 == "" then ".jpg" else ext0
  match h with
  | some hh => hh ++ ext
  | none => base

/-- `_copy_image_into_local`: returns the stored name, the content hash,
and the image directory afterwards (the copy is skipped when the
destination name already exists). -/
def copyImage (env : MergeEnv) (imgs : List String) (src : String)
    (prefer : Option String) : String × Option String × List String :=
  let nm := copyName env src prefer
  (nm, sha1 env src, if imgs.contains nm then imgs else imgs ++ [nm])

/-- The counters `merge_zip_into_local` returns. -/
structure Stats where
  inserted : Nat := 0
  updated : Nat := 0
  deleted : Nat := 0
  images_copied : Nat := 0
  skipped : Nat := 0
deriving DecidableEq, Repr

/-- Componentwise sum of two counter sets. -/
def Stats.add (a b : Stats) : Stats :=
  { inserted := a.inserted + b.inserted, updated := a.updated + b.updated,
    deleted := a.deleted + b.deleted, images_copied := a.images_copied + b.images_copied,
    skipped := a.skipped + b.skipped }

/-- The local SQLite connection: its table rows and its
connection-lifetime `total_changes` counter. -/
structure Conn where
  rows : List Rec
  tc : Nat
deriving DecidableEq, Repr

/-- The record an `UPDATE` writes over an existing row: every mapped
column is set from the incoming record; the id column is excluded from
the SET list and the legacy image column is not mapped at all. -/
def overwriteFrom (inc old : Rec) : Rec :=
  { inc with id := old.id, legacy_image := old.legacy_image }

/-- `_upsert_local`: `UPDATE ... WHERE id = ?`, then — only when the
connection's `total_changes` counter is still zero — `INSERT OR IGNORE`.
The `total_changes` test is the source's own (connection-lifetime, not
per-statement). -/
def upsertLocal (c : Conn) (inc : Rec) : Conn :=
  let matched := (c.rows.filter (fun x => x.id == inc.id)).length
  let rows1 := c.rows.map (fun x => if x.id == inc.id then overwriteFrom inc x else x)
  let tc1 := c.tc + matched
  if tc1 ≠ 0 then { rows := rows1, tc := tc1 }
  else if rows1.any (fun x => x.id == inc.id) then { rows := rows1, tc := tc1 }
  else { rows := rows1 ++ [{ inc with legacy_image := none }], tc := tc1 + 1 }

/-- `_soft_delete`: set `deleted_at` and `updated_at` of every row with
the given id to the tombstone timestamp. -/
def softDelete (c : Conn) (rid : String) (whenMs : Int) : Conn :=
  let matched := (c.rows.filter (fun x => x.id == rid)).length
  { rows := c.rows.map (fun x =>
      if x.id == rid then { x with deleted_at := some whenMs, updated_at := some whenMs } else x),
    tc := c.tc + matched }

/-- Python dict assignment `m[k] = v`: replace in place or append. -/
def dinsert (m : List (String × Rec)) (k : String) (v : Rec) : List (String × Rec) :=
  if m.any (fun p => p.1 == k) then m.map (fun p => if p.1 == k then (k, v) else p)
  else m ++ [(k, v)]

/-- Python dict lookup `m.get(k)`. -/
def dget (m : List (String × Rec)) (k : String) : Option Rec :=
  (m.find? (fun p => p.1 == k)).map (fun p => p.2)

/-- The row with a given id in a store (unique when ids are distinct). -/
def getRow (rows : List Rec) (rid : String) : Option Rec :=
  rows.find? (fun y => y.id == rid)

/-- The loop body of `_rows_map`: rows without a truthy id get a fresh
generated identifier (the uuid call counter is threaded explicitly), and
each row is assigned into the dictionary under its (possibly fresh) id. -/
def rowsMapGo (gen : Nat → String) :
    List Rec → List (String × Rec) → Nat → List (String × Rec) × Nat
  | [], m, n => (m, n)
  | r :: rs, m, n =>
    let d := if r.id == "" then { r with id := gen n } else r
    let n1 := if r.id == "" then n + 1 else n
    rowsMapGo gen rs (dinsert m d.id d) n1

/-- `_rows_map`: the id-to-record dictionary read from a store. -/
def rows_map (gen : Nat → String) (rows : List Rec) (n : Nat) :
    List (String × Rec) × Nat :=
  rowsMapGo gen rows [] n

/-- The id each physical row is filed under during one `_rows_map` read
(parallel to the row list). -/
def assignedKeys (gen : Nat → String) : List Rec → Nat → List String
  | [], _ => []
  | r :: rs, n =>
    (if r.id == "" then gen n else r.id) ::
      assignedKeys gen rs (if r.id == "" then n + 1 else n)

/-- The tombstone guard of the merge loop:
`not rloc.get("updated_at") or rin["deleted_at"] >= (rloc.get("updated_at") or 0)`. -/
def tombApply (rin x : Rec) : Bool :=
  !truthyI x.updated_at || decide (rin.deleted_at.getD 0 ≥ orZeroI x.updated_at)

/-- The field-adoption test of the equal-timestamp branch:
`v_in is not None and (v_lc is None or str(v_lc) == "" or v_in != v_lc)`. -/
def adoptB (vin vlc : Option Val) : Bool :=
  match vin with
  | none => false
  | some v =>
    match vlc with
    | none => true
    | some w => valStrEmpty w || v != w

/-- One merged field: the incoming value when adopted, else the local one. -/
def adoptF (vin vlc : Option Val) : Option Val :=
  if adoptB vin vlc then vin else vlc

/-- The `merged` dictionary after the five-field loop. -/
def fieldMerge (rin rloc : Rec) : Rec :=
  { rloc with
    sold_date := adoptF rin.sold_date rloc.sold_date,
    sold_price := adoptF rin.sold_price rloc.sold_price,
    name := adoptF rin.name rloc.name,
    location := adoptF rin.location rloc.location,
    buy_price := adoptF rin.buy_price rloc.buy_price }

/-- Whether the five-field loop set the `changed` flag. -/
def fieldChanged (rin rloc : Rec) : Bool :=
  adoptB rin.sold_date rloc.sold_date || adoptB rin.sold_price rloc.sold_price ||
    adoptB rin.name rloc.name || adoptB rin.location rloc.location ||
    adoptB rin.buy_price rloc.buy_price

/-- `in_hash = rin.get("image_hash") or _sha1(src_img)`. -/
def inHash (env : MergeEnv) (rin : Rec) (src : String) : Option String :=
  orS rin.image_hash (sha1 env src)

/-- `if in_hash and in_hash != lc_hash`: re-copy the image only when the
incoming content hash is known and differs from the local one. -/
def copyCondB (env : MergeEnv) (rin : Rec) (lcHash : Option String) (src : String) : Bool :=
  truthyS (inHash env rin src) && (inHash env rin src != lcHash)

/-- The mutable state of one merge pass: local connection, local image
directory (stored names), counters. -/
structure MState where
  conn : Conn
  imgs : List String
  stats : Stats
deriving DecidableEq, Repr

/-- One iteration of the merge loop of `merge_zip_into_local` for the
dictionary entry `(rid, rin)`; `snap` is the dictionary of local rows
read before the loop started (the loop never re-reads the store). -/
def mergeStep (env : MergeEnv) (now : Int) (snap : List (String × Rec))
    (st : MState) (rid : String) (rin : Rec) : MState :=
  let rloc? := dget snap rid
  if truthyI rin.deleted_at then
    match rloc? with
    | some rloc =>
      if tombApply rin rloc then
        { st with conn := softDelete st.conn rid (rin.deleted_at.getD 0),
                  stats := { st.stats with deleted := st.stats.deleted + 1 } }
      else { st with stats := { st.stats with skipped := st.stats.skipped + 1 } }
    | none => { st with stats := { st.stats with skipped := st.stats.skipped + 1 } }
  else
    match rloc? with
    | none =>
      let step1 :=
        match env.resolveImg rin with
        | some src =>
          let r := copyImage env st.imgs src rin.image_name
          ({ rin with image_name := some r.1, image_hash := r.2.1 }, r.2.2,
            st.stats.images_copied + 1)
        | none => (rin, st.imgs, st.stats.images_copied)
      let rin2 := if truthyI step1.1.updated_at then step1.1
        else { step1.1 with updated_at := some now }
      { conn := upsertLocal st.conn rin2,
        imgs := step1.2.1,
        stats := { st.stats with inserted := st.stats.inserted + 1, images_copied := step1.2.2 } }
    | some rloc =>
      let in_upd := orZeroI rin.updated_at
      let lc_upd := orZeroI rloc.updated_at
      if in_upd > lc_upd then
        let step1 :=
          match env.resolveImg rin with
          | some src =>
            if copyCondB env rin rloc.image_hash src then
              let r := copyImage env st.imgs src rin.image_name
              ({ rin with image_name := some r.1, image_hash := r.2.1 }, r.2.2,
                st.stats.images_copied + 1)
            else (rin, st.imgs, st.stats.images_copied)
          | none => (rin, st.imgs, st.stats.images_copied)
        { conn := upsertLocal st.conn step1.1,
          imgs := step1.2.1,
          stats := { st.stats with updated := st.stats.updated + 1, images_copied := step1.2.2 } }
      else if in_upd = lc_upd then
        let merged := fieldMerge rin rloc
        let changed0 := fieldChanged rin rloc
        let step1 :=
          match env.resolveImg rin with
          | some src =>
            if copyCondB env rin rloc.image_hash src then
              let r := copyImage env st.imgs src rin.image_name
              ({ merged with image_name := some r.1, image_hash := r.2.1 }, r.2.2,
                st.stats.images_copied + 1, true)
            else (merged, st.imgs, st.stats.images_copied, changed0)
          | none => (merged, st.imgs, st.stats.images_copied, changed0)
        if step1.2.2.2 then
          { conn := upsertLocal st.conn { step1.1 with id := rid, updated_at := some now },
            imgs := step1.2.1,
            stats := { st.stats with updated := st.stats.updated + 1, images_copied := step1.2.2.1 } }
        else
          { conn := st.conn,
            imgs := step1.2.1,
            stats := { st.stats with skipped := st.stats.skipped + 1, images_copied := step1.2.2.1 } }
      else { st with stats := { st.stats with skipped := st.stats.skipped + 1 } }

/-- The merge loop over every entry of the incoming dictionary. -/
def mergePass (env : MergeEnv) (now : Int) (inc : List (String × Rec))
    (snap : List (String × Rec)) (st : MState) : MState :=
  inc.foldl (fun st p => mergeStep env now snap st p.1 p.2) st

/-- `merge_zip_into_local` after staging: read both stores with
`_rows_map` (threading the uuid counter), run the loop with fresh
counters, return the final state and the uuid counter. -/
def merge_zip_into_local (env : MergeEnv) (gen : Nat → String) (now : Int)
    (incRows : List Rec) (conn : Conn) (imgs : List String) (n : Nat) :
    MState × Nat :=
  let inc := rows_map gen incRows n
  let snap := rows_map gen conn.rows inc.2
  (mergePass env now inc.1 snap.1 { conn := conn, imgs := imgs, stats := {} }, snap.2)

/-- A file name a store-file glob pattern of `_open_incoming_db` matches. -/
def isDbName (p : String) : Bool :=
  p.endsWith ".db" || p.endsWith ".sqlite" || p.endsWith ".sqlite3"

/-- `_open_incoming_db`: candidate store files at the archive root first,
then recursively; error when none is found. -/
def open_incoming_db (files : List String) : Except String String :=
  let atRoot := files.filter (fun p => !(p.toList.contains '/'))
  let cands0 := (atRoot.filter (fun p => p.endsWith ".db")) ++
    (atRoot.filter (fun p => p.endsWith ".sqlite")) ++
    (atRoot.filter (fun p => p.endsWith ".sqlite3"))
  let cands := if cands0.isEmpty then
      (files.filter (fun p => p.endsWith ".db")) ++
        (files.filter (fun p => p.endsWith ".sqlite")) ++
        (files.filter (fun p => p.endsWith ".sqlite3"))
    else cands0
  match cands with
  | [] => Except.error "No SQLite DB found in the imported archive."
  | c :: _ => Except.ok c

/-- Outcome of one call of `merge_zip_into_local` on a `.zip` argument:
the returned or raised value, the local store afterwards, and whether the
temporary extraction directory was removed. -/
structure MergeOutcome where
  result : Except String Stats
  conn : Conn
  imgs : List String
  tempdirRemoved : Bool
deriving Repr

/-- The `.zip` path of `merge_zip_into_local`: extract (the archive's
file list), locate the store file, merge, and — in the `finally` block on
both exit paths — remove the temporary directory.  `dbOf` gives the rows
of the store file found at a path. -/
def mergeZipTop (env : MergeEnv) (gen : Nat → String) (now : Int)
    (files : List String) (dbOf : String → List Rec)
    (conn : Conn) (imgs : List String) (n : Nat) : MergeOutcome :=
  match open_incoming_db files with
  | Except.error e =>
    { result := Except.error e, conn := conn, imgs := imgs, tempdirRemoved := true }
  | Except.ok p =>
    let st := merge_zip_into_local env gen now (dbOf p) conn imgs n
    { result := Except.ok st.1.stats, conn := st.1.conn, imgs := st.1.imgs, tempdirRemoved := true }


/-! ## Analysis layer

Characterizations of one pass used by the theorems: the per-row
transformation (`rowEffect`), the per-entry counter contribution
(`statOf`), the per-entry image-directory step (`imgsAfter`), and the
exact simulation of appended rows and the `total_changes` counter
(`stepAppend`, `passSim`).  These are proved equal to what `mergePass`
does (`mergePass_char`) and are never used inside the embedding itself.
-/

/-- The incoming record as rewritten by the image re-copy of the
newer-incoming branch. -/
def rin1U (env : MergeEnv) (rin : Rec) (lcHash : Option String) : Rec :=
  match env.resolveImg rin with
  | some src =>
    if copyCondB env rin lcHash src then
      { rin with
          image_name := some (copyName env src rin.image_name),
          image_hash := sha1 env src }
    else rin
  | none => rin

/-- Whether the equal-timestamp branch ends with its `changed` flag set. -/
def eqChanged (env : MergeEnv) (rin x : Rec) : Bool :=
  match env.resolveImg rin with
  | some src => if copyCondB env rin x.image_hash src then true else fieldChanged rin x
  | none => fieldChanged rin x

/-- The merged record of the equal-timestamp branch after its image step. -/
def merged1E (env : MergeEnv) (rin x : Rec) : Rec :=
  match env.resolveImg rin with
  | some src =>
    if copyCondB env rin x.image_hash src then
      { fieldMerge rin x with
          image_name := some (copyName env src rin.image_name),
          image_hash := sha1 env src }
    else fieldMerge rin x
  | none => fieldMerge rin x

/-- How one incoming record transforms the local row carrying its id. -/
def rowEffect (env : MergeEnv) (now : Int) (rin x : Rec) : Rec :=
  if truthyI rin.deleted_at then
    if tombApply rin x then
      { x with
          deleted_at := some (rin.deleted_at.getD 0),
          updated_at := some (rin.deleted_at.getD 0) }
    else x
  else if orZeroI rin.updated_at > orZeroI x.updated_at then
    overwriteFrom (rin1U env rin x.image_hash) x
  else if orZeroI rin.updated_at = orZeroI x.updated_at then
    if eqChanged env rin x then
      overwriteFrom { merged1E env rin x with updated_at := some now } x
    else x
  else x

/-- The record the insert branch hands to `_upsert_local`: image
rewritten, `updated_at` stamped when absent, legacy column unmapped. -/
def insRec (env : MergeEnv) (now : Int) (rin : Rec) : Rec :=
  let rin1 := match env.resolveImg rin with
    | some src =>
      { rin with
          image_name := some (copyName env src rin.image_name),
          image_hash := sha1 env src }
    | none => rin
  let rin2 := if truthyI rin1.updated_at then rin1 else { rin1 with updated_at := some now }
  { rin2 with legacy_image := none }

/-- 1 when the branch for a record present on both sides copies an
image, 0 otherwise. -/
def copiedFlag (env : MergeEnv) (rin : Rec) (lcHash : Option String) : Nat :=
  match env.resolveImg rin with
  | some src => if copyCondB env rin lcHash src then 1 else 0
  | none => 0

/-- The counter contribution of one incoming dictionary entry, as a
function of the snapshot row carrying its id. -/
def statOf (env : MergeEnv) (rin : Rec) (rloc? : Option Rec) : Stats :=
  match rloc? with
  | none =>
    if truthyI rin.deleted_at then { skipped := 1 }
    else { inserted := 1, images_copied := if (env.resolveImg rin).isSome then 1 else 0 }
  | some x =>
    if truthyI rin.deleted_at then
      if tombApply rin x then { deleted := 1 } else { skipped := 1 }
    else if orZeroI rin.updated_at > orZeroI x.updated_at then
      { updated := 1, images_copied := copiedFlag env rin x.image_hash }
    else if orZeroI rin.updated_at = orZeroI x.updated_at then
      if eqChanged env rin x then
        { updated := 1, images_copied := copiedFlag env rin x.image_hash }
      else { skipped := 1, images_copied := copiedFlag env rin x.image_hash }
    else { skipped := 1 }

/-- The image directory after one incoming dictionary entry. -/
def imgsAfter (env : MergeEnv) (rin : Rec) (rloc? : Option Rec)
    (imgs : List String) : List String :=
  match rloc? with
  | none =>
    if truthyI rin.deleted_at then imgs
    else
      match env.resolveImg rin with
      | some src =>
        let nm := copyName env src rin.image_name
        if imgs.contains nm then imgs else imgs ++ [nm]
      | none => imgs
  | some x =>
    if truthyI rin.deleted_at then imgs
    else if orZeroI rin.updated_at ≥ orZeroI x.updated_at then
      match env.resolveImg rin with
      | some src =>
        if copyCondB env rin x.image_hash src then
          let nm := copyName env src rin.image_name
          if imgs.contains nm then imgs else imgs ++ [nm]
        else imgs
      | none => imgs
    else imgs

/-- Rows appended by one entry (non-empty only on the insert path while
`total_changes` is still zero) with the new `total_changes` value. -/
def stepAppend (env : MergeEnv) (now : Int) (rin : Rec) (rloc? : Option Rec)
    (tc : Nat) : List Rec × Nat :=
  match rloc? with
  | some x =>
    if truthyI rin.deleted_at then ([], if tombApply rin x then tc + 1 else tc)
    else if orZeroI rin.updated_at > orZeroI x.updated_at then ([], tc + 1)
    else if orZeroI rin.updated_at = orZeroI x.updated_at then
      ([], if eqChanged env rin x then tc + 1 else tc)
    else ([], tc)
  | none =>
    if truthyI rin.deleted_at then ([], tc)
    else if tc = 0 then ([insRec env now rin], 1) else ([], tc)

/-- Appended rows and the `total_changes` value over a list of entries. -/
def passSim (env : MergeEnv) (now : Int) (snap : List (String × Rec)) :
    List (String × Rec) → Nat → List Rec × Nat
  | [], tc => ([], tc)
  | p :: ps, tc =>
    let a := stepAppend env now p.2 (dget snap p.1) tc
    let rest := passSim env now snap ps a.2
    (a.1 ++ rest.1, rest.2)

/-- The image directory over a list of entries. -/
def imgsFold (env : MergeEnv) (snap : List (String × Rec)) :
    List (String × Rec) → List String → List String
  | [], im => im
  | p :: ps, im => imgsFold env snap ps (imgsAfter env p.2 (dget snap p.1) im)

/-- The counters over a list of entries. -/
def statsFold (env : MergeEnv) (snap : List (String × Rec)) :
    List (String × Rec) → Stats → Stats
  | [], s => s
  | p :: ps, s => statsFold env snap ps (s.add (statOf env p.2 (dget snap p.1)))

/-- The per-row transformation a whole pass applies to a pre-existing
local row: the effect of the unique entry carrying its id, if any. -/
def effApply (env : MergeEnv) (now : Int) (inc : List (String × Rec)) (x : Rec) : Rec :=
  match inc.find? (fun p => p.1 == x.id) with
  | some p => rowEffect env now p.2 x
  | none => x


/-! ### Basic lemmas -/

theorem overwriteFrom_id (inc old : Rec) : (overwriteFrom inc old).id = old.id := rfl

theorem rowEffect_id (env : MergeEnv) (now : Int) (rin x : Rec) :
    (rowEffect env now rin x).id = x.id := by
  unfold rowEffect
  repeat' split <;> try rfl

theorem insRec_id (env : MergeEnv) (now : Int) (rin : Rec) :
    (insRec env now rin).id = rin.id := by
  unfold insRec
  cases env.resolveImg rin <;> dsimp <;> split <;> rfl

theorem effApply_id (env : MergeEnv) (now : Int) (inc : List (String × Rec)) (x : Rec) :
    (effApply env now inc x).id = x.id := by
  unfold effApply
  split
  · rw [rowEffect_id]
  · rfl

theorem getRow_map_idpres (f : Rec → Rec) (hf : ∀ y, (f y).id = y.id)
    (rows : List Rec) (rid : String) :
    getRow (rows.map f) rid = (getRow rows rid).map f := by
  unfold getRow
  rw [List.find?_map]
  have hp : ((fun y : Rec => y.id == rid) ∘ f) = fun y : Rec => y.id == rid := by
    funext y
    simp [Function.comp, hf]
  rw [hp]

theorem getRow_append (rows1 rows2 : List Rec) (rid : String) :
    getRow (rows1 ++ rows2) rid = (getRow rows1 rid).or (getRow rows2 rid) := by
  unfold getRow
  exact List.find?_append

theorem getRow_eq_none (rows : List Rec) (rid : String) :
    getRow rows rid = none ↔ ∀ y ∈ rows, y.id ≠ rid := by
  unfold getRow
  rw [List.find?_eq_none]
  constructor
  · intro h y hy
    have := h y hy
    simpa using this
  · intro h y hy
    simpa using h y hy

theorem dget_pairs (rows : List Rec) (k : String) :
    dget (rows.map (fun r => (r.id, r))) k = getRow rows k := by
  unfold dget getRow
  rw [List.find?_map]
  have hp : ((fun p : String × Rec => p.1 == k) ∘ fun r : Rec => (r.id, r)) =
      fun r : Rec => r.id == k := rfl
  rw [hp]
  cases rows.find? (fun r => r.id == k) <;> rfl

theorem dinsert_fresh (m : List (String × Rec)) (k : String) (v : Rec)
    (h : ∀ p ∈ m, p.1 ≠ k) : dinsert m k v = m ++ [(k, v)] := by
  have hno : (m.any (fun p => p.1 == k)) = false := by
    rw [List.any_eq_false]
    intro p hp
    simpa using h p hp
  unfold dinsert
  rw [hno]
  simp

theorem rowsMapGo_pairs (gen : Nat → String) :
    ∀ (rows : List Rec) (m : List (String × Rec)) (n : Nat),
    (∀ r ∈ rows, r.id ≠ "") → (rows.map Rec.id).Nodup →
    (∀ r ∈ rows, ∀ p ∈ m, p.1 ≠ r.id) →
    rowsMapGo gen rows m n = (m ++ rows.map (fun r => (r.id, r)), n)
  | [], m, n, _, _, _ => by simp [rowsMapGo]
  | r :: rs, m, n, h1, h2, h3 => by
    have hid : (r.id == "") = false := by
      simp only [beq_eq_false_iff_ne, ne_eq]
      exact h1 r (by simp)
    have h2c : r.id ∉ rs.map Rec.id ∧ (rs.map Rec.id).Nodup := by
      rw [List.map_cons] at h2
      exact List.nodup_cons.mp h2
    unfold rowsMapGo
    rw [hid]
    simp only [Bool.false_eq_true, if_false]
    rw [dinsert_fresh m r.id r (fun p hp => h3 r (by simp) p hp)]
    rw [rowsMapGo_pairs gen rs (m ++ [(r.id, r)]) n
      (fun x hx => h1 x (by simp [hx]))
      h2c.2
      (by
        intro x hx p hp
        rcases List.mem_append.mp hp with hp1 | hp2
        · exact h3 x (by simp [hx]) p hp1
        · have hpx : p = (r.id, r) := by simpa using hp2
          subst hpx
          simp only [ne_eq]
          intro hcontra
          exact h2c.1 (List.mem_map.mpr ⟨x, hx, hcontra.symm⟩))]
    simp

theorem rows_map_pairs (gen : Nat → String) (rows : List Rec) (n : Nat)
    (h1 : ∀ r ∈ rows, r.id ≠ "") (h2 : (rows.map Rec.id).Nodup) :
    rows_map gen rows n = (rows.map (fun r => (r.id, r)), n) := by
  unfold rows_map
  rw [rowsMapGo_pairs gen rows [] n h1 h2 (by simp)]
  simp

theorem upsertLocal_existing (c : Conn) (w : Rec)
    (hlen : (c.rows.filter (fun y => y.id == w.id)).length = 1) :
    upsertLocal c w =
      { rows := c.rows.map (fun y => if y.id == w.id then overwriteFrom w y else y),
        tc := c.tc + 1 } := by
  unfold upsertLocal
  rw [hlen]
  rw [if_pos (by omega)]

theorem upsertLocal_absent (c : Conn) (w : Rec)
    (hno : ∀ y ∈ c.rows, y.id ≠ w.id) :
    upsertLocal c w =
      if c.tc = 0 then { rows := c.rows ++ [{ w with legacy_image := none }], tc := 1 }
      else c := by
  have hflt : c.rows.filter (fun y => y.id == w.id) = [] := by
    rw [List.filter_eq_nil_iff]
    intro y hy
    simpa using hno y hy
  have hmap : c.rows.map (fun y => if y.id == w.id then overwriteFrom w y else y) = c.rows := by
    calc c.rows.map (fun y => if y.id == w.id then overwriteFrom w y else y)
        = c.rows.map id :=
          List.map_congr_left (fun y hy => by
            rw [if_neg (by simpa using hno y hy)]
            rfl)
      _ = c.rows := List.map_id c.rows
  have hany : (c.rows.any (fun x => x.id == w.id)) = false := by
    rw [List.any_eq_false]
    intro y hy
    simpa using hno y hy
  simp only [upsertLocal, hflt, List.length_nil, Nat.add_zero, hmap]
  by_cases htc : c.tc = 0
  · rw [if_pos htc]
    rw [if_neg (by simp [htc])]
    rw [if_neg (by rw [hany]; simp)]
    rw [htc]
  · rw [if_neg htc]
    rw [if_pos htc]

theorem softDelete_char (c : Conn) (rid : String) (whenMs : Int)
    (hlen : (c.rows.filter (fun y => y.id == rid)).length = 1) :
    softDelete c rid whenMs =
      { rows := c.rows.map (fun y =>
          if y.id == rid then { y with deleted_at := some whenMs, updated_at := some whenMs }
          else y),
        tc := c.tc + 1 } := by
  unfold softDelete
  rw [hlen]


theorem map_rewrite_congr (rows : List Rec) (rid : String) (x : Rec)
    (hmem : ∀ y ∈ rows, y.id = rid → y = x) (f g : Rec → Rec) (hfx : f x = g x) :
    rows.map (fun y => if y.id == rid then f y else y) =
      rows.map (fun y => if y.id == rid then g y else y) := by
  apply List.map_congr_left
  intro y hy
  by_cases hid : y.id = rid
  · have hyx := hmem y hy hid
    subst hyx
    rw [if_pos (by simpa using hid), if_pos (by simpa using hid), hfx]
  · rw [if_neg (by simpa using hid), if_neg (by simpa using hid)]

theorem map_rewrite_id (rows : List Rec) (rid : String) (f : Rec → Rec)
    (h : ∀ y ∈ rows, y.id = rid → f y = y) :
    rows.map (fun y => if y.id == rid then f y else y) = rows := by
  calc rows.map (fun y => if y.id == rid then f y else y)
      = rows.map id :=
        List.map_congr_left (fun y hy => by
          by_cases hid : y.id = rid
          · rw [if_pos (by simpa using hid)]
            exact h y hy hid
          · rw [if_neg (by simpa using hid)]
            rfl)
    _ = rows := List.map_id rows


theorem mergeStep_char_some (env : MergeEnv) (now : Int) (snap : List (String × Rec))
    (st : MState) (rid : String) (rin x : Rec)
    (hkey : rin.id = rid)
    (hd : dget snap rid = some x)
    (hflt : st.conn.rows.filter (fun y => y.id == rid) = [x]) :
    mergeStep env now snap st rid rin =
      MState.mk
        (Conn.mk
          (st.conn.rows.map (fun y => if y.id == rid then rowEffect env now rin y else y))
          (stepAppend env now rin (some x) st.conn.tc).2)
        (imgsAfter env rin (some x) st.imgs)
        (st.stats.add (statOf env rin (some x))) := by
  have hlen : (st.conn.rows.filter (fun y => y.id == rid)).length = 1 := by rw [hflt]; rfl
  have hlenk : (st.conn.rows.filter (fun y => y.id == rin.id)).length = 1 := by
    rw [hkey]; exact hlen
  have hmem : ∀ y ∈ st.conn.rows, y.id = rid → y = x := by
    intro y hy hid
    have hyf : y ∈ st.conn.rows.filter (fun y => y.id == rid) := by
      rw [List.mem_filter]
      exact ⟨hy, by simpa using hid⟩
    rw [hflt] at hyf
    simpa using hyf
  by_cases hdel : truthyI rin.deleted_at = true
  · by_cases htomb : tombApply rin x = true
    · simp only [mergeStep, hd, hdel, htomb, if_true, ite_true]
      rw [softDelete_char st.conn rid (rin.deleted_at.getD 0) hlen]
      rw [MState.mk.injEq]
      refine ⟨?_, ?_, ?_⟩
      · rw [Conn.mk.injEq]
        refine ⟨?_, ?_⟩
        · apply map_rewrite_congr st.conn.rows rid x hmem
          simp [rowEffect, hdel, htomb]
        · simp [stepAppend, hdel, htomb]
      · simp [imgsAfter, hdel]
      · simp [statOf, Stats.add, hdel, htomb]
    · simp only [mergeStep, hd, hdel, htomb, if_true, ite_true, ite_false,
        Bool.false_eq_true, if_false]
      rw [MState.mk.injEq]
      refine ⟨?_, ?_, ?_⟩
      · have hrows : st.conn.rows.map
            (fun y => if y.id == rid then rowEffect env now rin y else y) = st.conn.rows :=
          map_rewrite_id st.conn.rows rid _ (by
            intro y hy hid
            have hyx := hmem y hy hid
            subst hyx
            simp [rowEffect, hdel, htomb])
        rw [hrows]
        have htc : (stepAppend env now rin (some x) st.conn.tc).2 = st.conn.tc := by
          simp [stepAppend, hdel, htomb]
        rw [htc]
      · simp [imgsAfter, hdel]
      · simp [statOf, Stats.add, hdel, htomb]
  · by_cases hgt : orZeroI rin.updated_at > orZeroI x.updated_at
    · cases hres : env.resolveImg rin with
      | none =>
        simp only [mergeStep, hd, hdel, Bool.false_eq_true, if_false, ite_false, hres, hgt,
          if_true, ite_true]
        rw [upsertLocal_existing st.conn rin hlenk]
        rw [MState.mk.injEq]
        refine ⟨?_, ?_, ?_⟩
        · rw [Conn.mk.injEq]
          refine ⟨?_, ?_⟩
          · simp only [hkey]
            apply map_rewrite_congr st.conn.rows rid x hmem
            simp [rowEffect, rin1U, overwriteFrom, hkey, hdel, hgt, hres]
          · simp [stepAppend, hdel, hgt]
        · simp [imgsAfter, hdel, hgt, hres, le_of_lt hgt]
        · simp [statOf, Stats.add, copiedFlag, hdel, hgt, hres]
      | some src =>
        by_cases hcc : copyCondB env rin x.image_hash src = true
        · simp only [mergeStep, hd, hdel, Bool.false_eq_true, if_false, ite_false, hres,
            hgt, if_true, ite_true, hcc, copyImage]
          rw [upsertLocal_existing st.conn ({ rin with image_name := some (copyName env src rin.image_name), image_hash := sha1 env src } : Rec) hlenk]
          rw [MState.mk.injEq]
          refine ⟨?_, ?_, ?_⟩
          · rw [Conn.mk.injEq]
            refine ⟨?_, ?_⟩
            · simp only [hkey]
              apply map_rewrite_congr st.conn.rows rid x hmem
              simp [rowEffect, rin1U, overwriteFrom, hkey, hdel, hgt, hres, hcc]
            · simp [stepAppend, hdel, hgt]
          · simp [imgsAfter, hdel, hgt, hres, hcc, le_of_lt hgt]
          · simp [statOf, Stats.add, copiedFlag, hdel, hgt, hres, hcc]
        · simp only [mergeStep, hd, hdel, Bool.false_eq_true, if_false, ite_false, hres,
            hgt, if_true, ite_true, hcc, copyImage]
          rw [upsertLocal_existing st.conn rin hlenk]
          rw [MState.mk.injEq]
          refine ⟨?_, ?_, ?_⟩
          · rw [Conn.mk.injEq]
            refine ⟨?_, ?_⟩
            · simp only [hkey]
              apply map_rewrite_congr st.conn.rows rid x hmem
              simp [rowEffect, rin1U, overwriteFrom, hkey, hdel, hgt, hres, hcc]
            · simp [stepAppend, hdel, hgt]
          · simp [imgsAfter, hdel, hgt, hres, hcc, le_of_lt hgt]
          · simp [statOf, Stats.add, copiedFlag, hdel, hgt, hres, hcc]
    · by_cases heq : orZeroI rin.updated_at = orZeroI x.updated_at
      · cases hres : env.resolveImg rin with
        | none =>
          by_cases hch : fieldChanged rin x = true
          · simp only [mergeStep, hd, hdel, Bool.false_eq_true, if_false, ite_false, hres,
              hgt, if_true, ite_true, hch]
            rw [if_pos heq]
            rw [upsertLocal_existing st.conn ({ fieldMerge rin x with id := rid, updated_at := some now } : Rec) hlen]
            rw [MState.mk.injEq]
            refine ⟨?_, ?_, ?_⟩
            · rw [Conn.mk.injEq]
              refine ⟨?_, ?_⟩
              · simp only [hkey]
                apply map_rewrite_congr st.conn.rows rid x hmem
                simp [rowEffect, merged1E, eqChanged, hdel, hgt, heq, hres, hch,
                  overwriteFrom]
              · simp [stepAppend, eqChanged, hdel, hgt, heq, hres, hch]
            · simp [imgsAfter, hdel, hgt, heq, hres]
            · simp [statOf, Stats.add, copiedFlag, eqChanged, hdel, hgt, heq, hres, hch]
          · simp only [mergeStep, hd, hdel, Bool.false_eq_true, if_false, ite_false, hres,
              hgt, if_true, ite_true, hch]
            rw [if_pos heq]
            rw [MState.mk.injEq]
            refine ⟨?_, ?_, ?_⟩
            · have hrows : st.conn.rows.map
                  (fun y => if y.id == rid then rowEffect env now rin y else y) =
                  st.conn.rows :=
                map_rewrite_id st.conn.rows rid _ (by
                  intro y hy hid
                  have hyx := hmem y hy hid
                  subst hyx
                  simp [rowEffect, eqChanged, hdel, hgt, heq, hres, hch])
              rw [hrows]
              have htc : (stepAppend env now rin (some x) st.conn.tc).2 = st.conn.tc := by
                simp [stepAppend, eqChanged, hdel, hgt, heq, hres, hch]
              rw [htc]
            · simp [imgsAfter, hdel, hgt, heq, hres]
            · simp [statOf, Stats.add, copiedFlag, eqChanged, hdel, hgt, heq, hres, hch]
        | some src =>
          by_cases hcc : copyCondB env rin x.image_hash src = true
          · simp only [mergeStep, hd, hdel, Bool.false_eq_true, if_false, ite_false, hres,
              hgt, if_true, ite_true, hcc, copyImage]
            rw [if_pos heq]
            rw [upsertLocal_existing st.conn ({ fieldMerge rin x with id := rid, image_name := some (copyName env src rin.image_name), image_hash := sha1 env src, updated_at := some now } : Rec) hlen]
            rw [MState.mk.injEq]
            refine ⟨?_, ?_, ?_⟩
            · rw [Conn.mk.injEq]
              refine ⟨?_, ?_⟩
              · simp only [hkey]
                apply map_rewrite_congr st.conn.rows rid x hmem
                simp [rowEffect, merged1E, eqChanged, hdel, hgt, heq, hres, hcc,
                  overwriteFrom]
              · simp [stepAppend, eqChanged, hdel, hgt, heq, hres, hcc]
            · simp [imgsAfter, hdel, hgt, heq, hres, hcc]
            · simp [statOf, Stats.add, copiedFlag, eqChanged, hdel, hgt, heq, hres, hcc]
          · by_cases hch : fieldChanged rin x = true
            · simp only [mergeStep, hd, hdel, Bool.false_eq_true, if_false, ite_false,
                hres, hgt, if_true, ite_true, hcc, hch, copyImage]
              rw [if_pos heq]
              rw [upsertLocal_existing st.conn ({ fieldMerge rin x with id := rid, updated_at := some now } : Rec) hlen]
              rw [MState.mk.injEq]
              refine ⟨?_, ?_, ?_⟩
              · rw [Conn.mk.injEq]
                refine ⟨?_, ?_⟩
                · simp only [hkey]
                  apply map_rewrite_congr st.conn.rows rid x hmem
                  simp [rowEffect, merged1E, eqChanged, hdel, hgt, heq, hres, hcc, hch,
                    overwriteFrom]
                · simp [stepAppend, eqChanged, hdel, hgt, heq, hres, hcc, hch]
              · simp [imgsAfter, hdel, hgt, heq, hres, hcc]
              · simp [statOf, Stats.add, copiedFlag, eqChanged, hdel, hgt, heq, hres, hcc,
                  hch]
            · simp only [mergeStep, hd, hdel, Bool.false_eq_true, if_false, ite_false,
                hres, hgt, if_true, ite_true, hcc, hch, copyImage]
              rw [if_pos heq]
              rw [MState.mk.injEq]
              refine ⟨?_, ?_, ?_⟩
              · have hrows : st.conn.rows.map
                    (fun y => if y.id == rid then rowEffect env now rin y else y) =
                    st.conn.rows :=
                  map_rewrite_id st.conn.rows rid _ (by
                    intro y hy hid
                    have hyx := hmem y hy hid
                    subst hyx
                    simp [rowEffect, eqChanged, hdel, hgt, heq, hres, hcc, hch])
                rw [hrows]
                have htc : (stepAppend env now rin (some x) st.conn.tc).2 = st.conn.tc := by
                  simp [stepAppend, eqChanged, hdel, hgt, heq, hres, hcc, hch]
                rw [htc]
              · simp [imgsAfter, hdel, hgt, heq, hres, hcc]
              · simp [statOf, Stats.add, copiedFlag, eqChanged, hdel, hgt, heq, hres, hcc,
                  hch]
      · simp only [mergeStep, hd, hdel, Bool.false_eq_true, if_false, ite_false, hgt]
        rw [if_neg heq]
        rw [MState.mk.injEq]
        refine ⟨?_, ?_, ?_⟩
        · have hrows : st.conn.rows.map
              (fun y => if y.id == rid then rowEffect env now rin y else y) = st.conn.rows :=
            map_rewrite_id st.conn.rows rid _ (by
              intro y hy hid
              have hyx := hmem y hy hid
              subst hyx
              simp [rowEffect, hdel, hgt, heq])
          rw [hrows]
          have htc : (stepAppend env now rin (some x) st.conn.tc).2 = st.conn.tc := by
            simp [stepAppend, hdel, hgt, heq]
          rw [htc]
        · have hle : ¬ (orZeroI rin.updated_at ≥ orZeroI x.updated_at) := by omega
          simp [imgsAfter, hdel, hle]
        · simp [statOf, Stats.add, hdel, hgt, heq]


theorem mergeStep_char_none (env : MergeEnv) (now : Int) (snap : List (String × Rec))
    (st : MState) (rid : String) (rin : Rec)
    (hkey : rin.id = rid)
    (hd : dget snap rid = none)
    (hno : ∀ y ∈ st.conn.rows, y.id ≠ rid) :
    mergeStep env now snap st rid rin =
      MState.mk
        (Conn.mk (st.conn.rows ++ (stepAppend env now rin none st.conn.tc).1)
          (stepAppend env now rin none st.conn.tc).2)
        (imgsAfter env rin none st.imgs)
        (st.stats.add (statOf env rin none)) := by
  have hno2 : ∀ y ∈ st.conn.rows, y.id ≠ rin.id := by
    intro y hy
    rw [hkey]
    exact hno y hy
  by_cases hdel : truthyI rin.deleted_at = true
  · simp only [mergeStep, hd, hdel, if_true, ite_true]
    rw [MState.mk.injEq]
    refine ⟨?_, ?_, ?_⟩
    · simp [stepAppend, hdel]
    · simp [imgsAfter, hdel]
    · simp [statOf, Stats.add, hdel]
  · cases hres : env.resolveImg rin with
    | none =>
      by_cases hstamp : truthyI rin.updated_at = true
      · simp only [mergeStep, hd, hdel, Bool.false_eq_true, if_false, ite_false, hres,
          hstamp, if_true, ite_true]
        rw [upsertLocal_absent st.conn rin hno2]
        by_cases htc : st.conn.tc = 0
        · rw [if_pos htc]
          rw [MState.mk.injEq]
          refine ⟨?_, ?_, ?_⟩
          · simp [stepAppend, hdel, htc, insRec, hres, hstamp]
          · simp [imgsAfter, hdel, hres]
          · simp [statOf, Stats.add, hdel, hres]
        · rw [if_neg htc]
          rw [MState.mk.injEq]
          refine ⟨?_, ?_, ?_⟩
          · simp [stepAppend, hdel, htc]
          · simp [imgsAfter, hdel, hres]
          · simp [statOf, Stats.add, hdel, hres]
      · simp only [mergeStep, hd, hdel, Bool.false_eq_true, if_false, ite_false, hres,
          hstamp, if_true, ite_true]
        rw [upsertLocal_absent st.conn ({ rin with updated_at := some now } : Rec) hno2]
        by_cases htc : st.conn.tc = 0
        · rw [if_pos htc]
          rw [MState.mk.injEq]
          refine ⟨?_, ?_, ?_⟩
          · simp [stepAppend, hdel, htc, insRec, hres, hstamp]
          · simp [imgsAfter, hdel, hres]
          · simp [statOf, Stats.add, hdel, hres]
        · rw [if_neg htc]
          rw [MState.mk.injEq]
          refine ⟨?_, ?_, ?_⟩
          · simp [stepAppend, hdel, htc]
          · simp [imgsAfter, hdel, hres]
          · simp [statOf, Stats.add, hdel, hres]
    | some src =>
      by_cases hstamp : truthyI rin.updated_at = true
      · simp only [mergeStep, hd, hdel, Bool.false_eq_true, if_false, ite_false, hres,
          hstamp, if_true, ite_true, copyImage]
        rw [upsertLocal_absent st.conn ({ rin with image_name := some (copyName env src rin.image_name), image_hash := sha1 env src } : Rec) hno2]
        by_cases htc : st.conn.tc = 0
        · rw [if_pos htc]
          rw [MState.mk.injEq]
          refine ⟨?_, ?_, ?_⟩
          · simp [stepAppend, hdel, htc, insRec, hres, hstamp]
          · simp [imgsAfter, hdel, hres]
          · simp [statOf, Stats.add, hdel, hres]
        · rw [if_neg htc]
          rw [MState.mk.injEq]
          refine ⟨?_, ?_, ?_⟩
          · simp [stepAppend, hdel, htc]
          · simp [imgsAfter, hdel, hres]
          · simp [statOf, Stats.add, hdel, hres]
      · simp only [mergeStep, hd, hdel, Bool.false_eq_true, if_false, ite_false, hres,
          hstamp, if_true, ite_true, copyImage]
        rw [upsertLocal_absent st.conn ({ rin with image_name := some (copyName env src rin.image_name), image_hash := sha1 env src, updated_at := some now } : Rec) hno2]
        by_cases htc : st.conn.tc = 0
        · rw [if_pos htc]
          rw [MState.mk.injEq]
          refine ⟨?_, ?_, ?_⟩
          · simp [stepAppend, hdel, htc, insRec, hres, hstamp]
          · simp [imgsAfter, hdel, hres]
          · simp [statOf, Stats.add, hdel, hres]
        · rw [if_neg htc]
          rw [MState.mk.injEq]
          refine ⟨?_, ?_, ?_⟩
          · simp [stepAppend, hdel, htc]
          · simp [imgsAfter, hdel, hres]
          · simp [statOf, Stats.add, hdel, hres]


theorem find?_keys_none (l : List (String × Rec)) (k : String)
    (h : k ∉ l.map Prod.fst) : l.find? (fun q => q.1 == k) = none := by
  rw [List.find?_eq_none]
  intro q hq
  simp only [beq_iff_eq]
  intro hqk
  exact h (List.mem_map.mpr ⟨q, hq, hqk⟩)

theorem effApply_notin (env : MergeEnv) (now : Int) (ps : List (String × Rec)) (y : Rec)
    (h : y.id ∉ ps.map Prod.fst) : effApply env now ps y = y := by
  unfold effApply
  rw [find?_keys_none ps y.id h]

theorem effApply_cons_ne (env : MergeEnv) (now : Int) (p : String × Rec)
    (ps : List (String × Rec)) (y : Rec) (h : y.id ≠ p.1) :
    effApply env now (p :: ps) y = effApply env now ps y := by
  unfold effApply
  rw [List.find?_cons]
  have : (p.1 == y.id) = false := by
    simp only [beq_eq_false_iff_ne, ne_eq]
    exact fun hc => h hc.symm
  rw [this]

theorem effApply_cons_eq (env : MergeEnv) (now : Int) (p : String × Rec)
    (ps : List (String × Rec)) (y : Rec) (hk : p.1 = y.id) :
    effApply env now (p :: ps) y = rowEffect env now p.2 y := by
  unfold effApply
  rw [List.find?_cons]
  have : (p.1 == y.id) = true := by simpa using hk
  rw [this]

theorem filter_rewrite_ne (k k' : String) (f : Rec → Rec)
    (hf : ∀ y : Rec, (f y).id = y.id) (hkk : k ≠ k') :
    ∀ cur : List Rec,
    (cur.map (fun y => if y.id == k then f y else y)).filter (fun y => y.id == k') =
      cur.filter (fun y => y.id == k')
  | [] => rfl
  | y :: ys => by
    have hkk2 : (k == k') = false := by simpa using hkk
    by_cases h1 : y.id = k
    · simp only [List.map_cons, List.filter_cons,
        if_pos (show (y.id == k) = true by simpa using h1)]
      rw [hf y, h1, hkk2]
      simp only [Bool.false_eq_true, if_false]
      exact filter_rewrite_ne k k' f hf hkk ys
    · simp only [List.map_cons, List.filter_cons,
        if_neg (show ¬ (y.id == k) = true by simpa using h1)]
      rw [filter_rewrite_ne k k' f hf hkk ys]

theorem stepAppend_some_nil (env : MergeEnv) (now : Int) (rin x : Rec) (tc : Nat) :
    (stepAppend env now rin (some x) tc).1 = [] := by
  simp only [stepAppend]
  repeat' split
  all_goals rfl

theorem mergePass_char (env : MergeEnv) (now : Int) (snap : List (String × Rec)) :
    ∀ (inc : List (String × Rec)) (cur : List Rec) (tc : Nat) (im : List String)
      (s0 : Stats),
    (∀ p ∈ inc, p.2.id = p.1) →
    ((inc.map Prod.fst).Nodup) →
    (∀ p ∈ inc, ∀ x, dget snap p.1 = some x →
      cur.filter (fun y => y.id == p.1) = [x]) →
    (∀ p ∈ inc, dget snap p.1 = none → ∀ y ∈ cur, y.id ≠ p.1) →
    mergePass env now inc snap (MState.mk (Conn.mk cur tc) im s0) =
      MState.mk
        (Conn.mk (cur.map (effApply env now inc) ++ (passSim env now snap inc tc).1)
          (passSim env now snap inc tc).2)
        (imgsFold env snap inc im)
        (statsFold env snap inc s0)
  | [], cur, tc, im, s0, _, _, _, _ => by
    simp only [mergePass, List.foldl_nil, passSim, imgsFold, statsFold, List.append_nil]
    have : cur.map (effApply env now []) = cur :=
      List.map_congr_left (fun y _ => effApply_notin env now [] y (by simp)) |>.trans
        (List.map_id cur)
    rw [this]
  | p :: ps, cur, tc, im, s0, h1, h2, h3, h4 => by
    have hkey : p.2.id = p.1 := h1 p (by simp)
    have hkeys2 : ∀ q ∈ ps, q.2.id = q.1 := fun q hq => h1 q (by simp [hq])
    have hnd : p.1 ∉ ps.map Prod.fst ∧ (ps.map Prod.fst).Nodup := by
      rw [List.map_cons] at h2
      exact List.nodup_cons.mp h2
    have hstep : mergePass env now (p :: ps) snap (MState.mk (Conn.mk cur tc) im s0) =
        mergePass env now ps snap
          (mergeStep env now snap (MState.mk (Conn.mk cur tc) im s0) p.1 p.2) := rfl
    rw [hstep]
    cases hsn : dget snap p.1 with
    | some x =>
      rw [mergeStep_char_some env now snap (MState.mk (Conn.mk cur tc) im s0) p.1 p.2 x
        hkey hsn (h3 p (by simp) x hsn)]
      rw [mergePass_char env now snap ps
        (cur.map (fun y => if y.id == p.1 then rowEffect env now p.2 y else y))
        (stepAppend env now p.2 (some x) tc).2
        (imgsAfter env p.2 (some x) im) (s0.add (statOf env p.2 (some x)))
        hkeys2 hnd.2
        (by
          intro q hq x2 hx2
          have hne : p.1 ≠ q.1 := fun hc => hnd.1 (hc ▸ List.mem_map.mpr ⟨q, hq, rfl⟩)
          rw [filter_rewrite_ne p.1 q.1 (rowEffect env now p.2)
            (fun y => rowEffect_id env now p.2 y) hne cur]
          exact h3 q (by simp [hq]) x2 hx2)
        (by
          intro q hq hq2 y hy
          obtain ⟨z, hz, hzy⟩ := List.mem_map.mp hy
          have hzid : y.id = z.id := by
            rw [← hzy]
            by_cases hc : z.id = p.1
            · rw [if_pos (by simpa using hc)]
              exact rowEffect_id env now p.2 z
            · rw [if_neg (by simpa using hc)]
          rw [hzid]
          exact h4 q (by simp [hq]) hq2 z hz)]
      simp only [passSim, imgsFold, statsFold, hsn]
      rw [MState.mk.injEq]
      refine ⟨?_, rfl, rfl⟩
      rw [Conn.mk.injEq]
      refine ⟨?_, rfl⟩
      have hmaps : (cur.map (fun y => if y.id == p.1 then rowEffect env now p.2 y else y)).map
          (effApply env now ps) = cur.map (effApply env now (p :: ps)) := by
        rw [List.map_map]
        apply List.map_congr_left
        intro y _
        by_cases hc : y.id = p.1
        · have h5 : (effApply env now ps (rowEffect env now p.2 y)) =
              rowEffect env now p.2 y := by
            apply effApply_notin
            rw [rowEffect_id, hc]
            exact hnd.1
          simp only [Function.comp, if_pos (by simpa using hc : (y.id == p.1) = true), h5]
          rw [effApply_cons_eq env now p ps y hc.symm]
        · simp only [Function.comp, if_neg (by simpa using hc : ¬ (y.id == p.1) = true)]
          rw [effApply_cons_ne env now p ps y (by simpa using hc)]
      rw [hmaps, stepAppend_some_nil, List.nil_append]
    | none =>
      rw [mergeStep_char_none env now snap (MState.mk (Conn.mk cur tc) im s0) p.1 p.2
        hkey hsn (h4 p (by simp) hsn)]
      rw [mergePass_char env now snap ps
        (cur ++ (stepAppend env now p.2 none tc).1)
        (stepAppend env now p.2 none tc).2
        (imgsAfter env p.2 none im) (s0.add (statOf env p.2 none))
        hkeys2 hnd.2
        (by
          intro q hq x2 hx2
          have hne : p.1 ≠ q.1 := fun hc => hnd.1 (hc ▸ List.mem_map.mpr ⟨q, hq, rfl⟩)
          rw [List.filter_append]
          have happ : ((stepAppend env now p.2 none tc).1.filter
              (fun y => y.id == q.1)) = [] := by
            rw [List.filter_eq_nil_iff]
            intro y hy
            have hyid : y.id = p.1 := by
              simp only [stepAppend] at hy
              by_cases hdel : truthyI p.2.deleted_at = true
              · rw [if_pos hdel] at hy
                simp at hy
              · rw [if_neg hdel] at hy
                by_cases htc : tc = 0
                · rw [if_pos htc] at hy
                  have : y = insRec env now p.2 := by simpa using hy
                  rw [this, insRec_id, hkey]
                · rw [if_neg htc] at hy
                  simp at hy
            simp [hyid]
            exact hne
          rw [happ, List.append_nil]
          exact h3 q (by simp [hq]) x2 hx2)
        (by
          intro q hq hq2 y hy
          rcases List.mem_append.mp hy with hy1 | hy2
          · exact h4 q (by simp [hq]) hq2 y hy1
          · have hne : p.1 ≠ q.1 := fun hc => hnd.1 (hc ▸ List.mem_map.mpr ⟨q, hq, rfl⟩)
            have hyid : y.id = p.1 := by
              simp only [stepAppend] at hy2
              by_cases hdel : truthyI p.2.deleted_at = true
              · rw [if_pos hdel] at hy2
                simp at hy2
              · rw [if_neg hdel] at hy2
                by_cases htc : tc = 0
                · rw [if_pos htc] at hy2
                  have : y = insRec env now p.2 := by simpa using hy2
                  rw [this, insRec_id, hkey]
                · rw [if_neg htc] at hy2
                  simp at hy2
            rw [hyid]
            exact hne)]
      simp only [passSim, imgsFold, statsFold, hsn]
      rw [MState.mk.injEq]
      refine ⟨?_, rfl, rfl⟩
      rw [Conn.mk.injEq]
      refine ⟨?_, rfl⟩
      rw [List.map_append]
      have hca : (cur.map (effApply env now ps)) = cur.map (effApply env now (p :: ps)) := by
        apply List.map_congr_left
        intro y hy
        rw [effApply_cons_ne env now p ps y (h4 p (by simp) hsn y hy)]
      have hex : ((stepAppend env now p.2 none tc).1.map (effApply env now ps)) =
          (stepAppend env now p.2 none tc).1 := by
        have : ∀ y ∈ (stepAppend env now p.2 none tc).1, effApply env now ps y = y := by
          intro y hy
          apply effApply_notin
          have hyid : y.id = p.1 := by
            simp only [stepAppend] at hy
            by_cases hdel : truthyI p.2.deleted_at = true
            · rw [if_pos hdel] at hy
              simp at hy
            · rw [if_neg hdel] at hy
              by_cases htc : tc = 0
              · rw [if_pos htc] at hy
                have : y = insRec env now p.2 := by simpa using hy
                rw [this, insRec_id, hkey]
              · rw [if_neg htc] at hy
                simp at hy
          rw [hyid]
          exact hnd.1
        exact (List.map_congr_left this).trans (List.map_id _)
      rw [hca, hex, List.append_assoc]


/-- Store rows as the id-keyed dictionary entries `_rows_map` yields when
every row carries a distinct persisted id. -/
def pairsOf (rows : List Rec) : List (String × Rec) :=
  rows.map (fun r => (r.id, r))

theorem filter_eq_single (k : String) (x : Rec) :
    ∀ rows : List Rec, (rows.map Rec.id).Nodup → getRow rows k = some x →
    rows.filter (fun y => y.id == k) = [x]
  | [], _, hf => by simp [getRow] at hf
  | y :: ys, hnd, hf => by
    rw [List.map_cons] at hnd
    have hnd2 := List.nodup_cons.mp hnd
    unfold getRow at hf
    by_cases h1 : y.id = k
    · have h1b : (y.id == k) = true := by simpa using h1
      rw [List.find?_cons, h1b] at hf
      have hxy : y = x := by simpa using hf
      rw [List.filter_cons, h1b]
      simp only [if_true]
      have hnil : ys.filter (fun z => z.id == k) = [] := by
        rw [List.filter_eq_nil_iff]
        intro z hz
        simp only [beq_iff_eq]
        intro hzk
        exact hnd2.1 (List.mem_map.mpr ⟨z, hz, by rw [hzk, ← h1]⟩)
      rw [hnil, hxy]
    · have h1b : (y.id == k) = false := by simpa using h1
      rw [List.find?_cons, h1b] at hf
      rw [List.filter_cons, h1b]
      simp only [Bool.false_eq_true, if_false]
      exact filter_eq_single k x ys hnd2.2 hf

theorem merge_char (env : MergeEnv) (gen : Nat → String) (now : Int)
    (incRows : List Rec) (conn : Conn) (imgs : List String) (n : Nat)
    (hi1 : ∀ r ∈ incRows, r.id ≠ "") (hi2 : (incRows.map Rec.id).Nodup)
    (hl1 : ∀ r ∈ conn.rows, r.id ≠ "") (hl2 : (conn.rows.map Rec.id).Nodup) :
    merge_zip_into_local env gen now incRows conn imgs n =
      (MState.mk
        (Conn.mk
          (conn.rows.map (effApply env now (pairsOf incRows)) ++
            (passSim env now (pairsOf conn.rows) (pairsOf incRows) conn.tc).1)
          (passSim env now (pairsOf conn.rows) (pairsOf incRows) conn.tc).2)
        (imgsFold env (pairsOf conn.rows) (pairsOf incRows) imgs)
        (statsFold env (pairsOf conn.rows) (pairsOf incRows) {}),
       n) := by
  have hrm1 := rows_map_pairs gen incRows n hi1 hi2
  have hrm2 := rows_map_pairs gen conn.rows n hl1 hl2
  simp only [merge_zip_into_local, hrm1, hrm2]
  rw [Prod.mk.injEq]
  refine ⟨?_, rfl⟩
  have h1 : ∀ p ∈ pairsOf incRows, p.2.id = p.1 := by
    intro p hp
    obtain ⟨r, _, hr⟩ := List.mem_map.mp hp
    rw [← hr]
  have h2 : ((pairsOf incRows).map Prod.fst).Nodup := by
    unfold pairsOf
    rw [List.map_map]
    exact hi2
  have h3 : ∀ p ∈ pairsOf incRows, ∀ x, dget (pairsOf conn.rows) p.1 = some x →
      conn.rows.filter (fun y => y.id == p.1) = [x] := by
    intro p _ x hx
    unfold pairsOf at hx
    rw [dget_pairs] at hx
    exact filter_eq_single p.1 x conn.rows hl2 hx
  have h4 : ∀ p ∈ pairsOf incRows, dget (pairsOf conn.rows) p.1 = none →
      ∀ y ∈ conn.rows, y.id ≠ p.1 := by
    intro p _ hx
    unfold pairsOf at hx
    rw [dget_pairs] at hx
    exact (getRow_eq_none conn.rows p.1).mp hx
  exact mergePass_char env now (pairsOf conn.rows) (pairsOf incRows) conn.rows conn.tc
    imgs {} h1 h2 h3 h4


/-! ### Per-record second-pass analysis

Hygiene conditions under which re-merging a record is a no-op: none of
the five mergeable fields holds the empty string (the source re-adopts an
equal empty string and stamps a fresh `updated_at`), and an incoming
record's stored `image_hash` agrees with the content hash of its resolved
image file (a stale stored hash makes the source re-copy and re-write on
every pass). -/

def noEmptyFields (r : Rec) : Prop :=
  r.sold_date ≠ some (Val.str "") ∧ r.sold_price ≠ some (Val.str "") ∧
    r.name ≠ some (Val.str "") ∧ r.location ≠ some (Val.str "") ∧
    r.buy_price ≠ some (Val.str "")

def imageCoherent (env : MergeEnv) (r : Rec) : Prop :=
  ∀ p, env.resolveImg r = some p → r.image_hash = sha1 env p

theorem adoptB_self (v : Option Val) (h : v ≠ some (Val.str "")) :
    adoptB v v = false := by
  match v with
  | none => rfl
  | some (Val.int n) => simp [adoptB, valStrEmpty]
  | some (Val.str s) =>
    have hs : s ≠ "" := fun hc => h (by rw [hc])
    simp [adoptB, valStrEmpty, hs]

theorem adoptB_adoptF (vin vlc : Option Val) (h : vin ≠ some (Val.str "")) :
    adoptB vin (adoptF vin vlc) = false := by
  unfold adoptF
  by_cases h2 : adoptB vin vlc = true
  · rw [if_pos h2]
    exact adoptB_self vin h
  · rw [if_neg h2]
    simpa using h2

theorem orS_self (a : Option String) : orS a a = a := by
  unfold orS
  split <;> rfl

theorem inHash_coherent (env : MergeEnv) (rin : Rec) (src : String)
    (hh : rin.image_hash = sha1 env src) : inHash env rin src = sha1 env src := by
  unfold inHash
  rw [hh, orS_self]

theorem sha1_truthy (env : MergeEnv) (src : String) (h : String)
    (hs : sha1 env src = some h) : truthyS (some h) = true := by
  unfold sha1 at hs
  cases hc : env.content src with
  | none => rw [hc] at hs; simp at hs
  | some c =>
    rw [hc] at hs
    have hfc : h = env.hashF c := by simpa using hs.symm
    simp only [truthyS, hfc, bne_iff_ne, ne_eq]
    exact env.hashNE c

theorem copyCondB_none (env : MergeEnv) (rin : Rec) (lh : Option String) (src : String)
    (hh : rin.image_hash = sha1 env src) (hs : sha1 env src = none) :
    copyCondB env rin lh src = false := by
  unfold copyCondB
  rw [inHash_coherent env rin src hh, hs]
  rfl

theorem copyCondB_same (env : MergeEnv) (rin : Rec) (src : String)
    (hh : rin.image_hash = sha1 env src) :
    copyCondB env rin (sha1 env src) src = false := by
  unfold copyCondB
  rw [inHash_coherent env rin src hh, bne_self_eq_false, Bool.and_false]

theorem rin1U_image_hash (env : MergeEnv) (rin : Rec) (lh : Option String) (src : String)
    (hres : env.resolveImg rin = some src) (hh : rin.image_hash = sha1 env src) :
    (rin1U env rin lh).image_hash = sha1 env src := by
  simp only [rin1U, hres]
  split
  · rfl
  · exact hh

theorem rin1U_fields (env : MergeEnv) (rin : Rec) (lh : Option String) :
    (rin1U env rin lh).sold_date = rin.sold_date ∧
    (rin1U env rin lh).sold_price = rin.sold_price ∧
    (rin1U env rin lh).name = rin.name ∧
    (rin1U env rin lh).location = rin.location ∧
    (rin1U env rin lh).buy_price = rin.buy_price ∧
    (rin1U env rin lh).updated_at = rin.updated_at ∧
    (rin1U env rin lh).deleted_at = rin.deleted_at := by
  cases hres : env.resolveImg rin with
  | none => simp [rin1U, hres]
  | some src =>
    simp only [rin1U, hres]
    split <;> simp

theorem merged1E_fields (env : MergeEnv) (rin x : Rec) :
    (merged1E env rin x).sold_date = adoptF rin.sold_date x.sold_date ∧
    (merged1E env rin x).sold_price = adoptF rin.sold_price x.sold_price ∧
    (merged1E env rin x).name = adoptF rin.name x.name ∧
    (merged1E env rin x).location = adoptF rin.location x.location ∧
    (merged1E env rin x).buy_price = adoptF rin.buy_price x.buy_price ∧
    (merged1E env rin x).deleted_at = x.deleted_at := by
  cases hres : env.resolveImg rin with
  | none => simp [merged1E, fieldMerge, hres]
  | some src =>
    simp only [merged1E, fieldMerge, hres]
    split <;> simp

theorem fieldChanged_false (rin y : Rec)
    (h1 : adoptB rin.sold_date y.sold_date = false)
    (h2 : adoptB rin.sold_price y.sold_price = false)
    (h3 : adoptB rin.name y.name = false)
    (h4 : adoptB rin.location y.location = false)
    (h5 : adoptB rin.buy_price y.buy_price = false) :
    fieldChanged rin y = false := by
  unfold fieldChanged
  rw [h1, h2, h3, h4, h5]
  rfl

theorem eqChanged_cc_false (env : MergeEnv) (rin y : Rec) (src : String)
    (hres : env.resolveImg rin = some src) (hec : eqChanged env rin y = false) :
    copyCondB env rin y.image_hash src = false := by
  simp only [eqChanged, hres] at hec
  by_cases hcc : copyCondB env rin y.image_hash src = true
  · rw [if_pos hcc] at hec
    simp at hec
  · simpa using hcc


theorem adoptB_of_eq (vin vlc : Option Val) (h : vlc = vin)
    (hne : vin ≠ some (Val.str "")) : adoptB vin vlc = false := by
  rw [h]
  exact adoptB_self vin hne

theorem tombApply_self (rin x : Rec) :
    tombApply rin { x with
      deleted_at := some (rin.deleted_at.getD 0),
      updated_at := some (rin.deleted_at.getD 0) } = true := by
  simp [tombApply, orZeroI]

theorem eqChanged_afterA (env : MergeEnv) (rin x : Rec) (hne : noEmptyFields rin)
    (himg : imageCoherent env rin) :
    eqChanged env rin (overwriteFrom (rin1U env rin x.image_hash) x) = false := by
  obtain ⟨f1, f2, f3, f4, f5, _, _⟩ := rin1U_fields env rin x.image_hash
  obtain ⟨e1, e2, e3, e4, e5⟩ := hne
  have hfc : fieldChanged rin (overwriteFrom (rin1U env rin x.image_hash) x) = false :=
    fieldChanged_false rin _ (adoptB_of_eq _ _ f1 e1) (adoptB_of_eq _ _ f2 e2)
      (adoptB_of_eq _ _ f3 e3) (adoptB_of_eq _ _ f4 e4) (adoptB_of_eq _ _ f5 e5)

  cases hres : env.resolveImg rin with
  | none => simpa only [eqChanged, hres] using hfc
  | some src =>
    simp only [eqChanged, hres]
    have hih : (overwriteFrom (rin1U env rin x.image_hash) x).image_hash = sha1 env src :=
      rin1U_image_hash env rin x.image_hash src hres (himg src hres)
    have hcc : copyCondB env rin
        (overwriteFrom (rin1U env rin x.image_hash) x).image_hash src = false := by
      rw [hih]
      exact copyCondB_same env rin src (himg src hres)
    rw [hcc]
    simpa using hfc

theorem merged1E_cc_false (env : MergeEnv) (rin x : Rec) (src : String)
    (hres : env.resolveImg rin = some src) (hh : rin.image_hash = sha1 env src) :
    copyCondB env rin (merged1E env rin x).image_hash src = false := by
  simp only [merged1E, hres]
  by_cases hcc : copyCondB env rin x.image_hash src = true
  · rw [if_pos hcc]
    show copyCondB env rin (sha1 env src) src = false
    exact copyCondB_same env rin src hh
  · rw [if_neg hcc]
    show copyCondB env rin x.image_hash src = false
    simpa using hcc

theorem eqChanged_afterB (env : MergeEnv) (now : Int) (rin x : Rec)
    (hne : noEmptyFields rin) (himg : imageCoherent env rin) :
    eqChanged env rin
      (overwriteFrom { merged1E env rin x with updated_at := some now } x) = false := by
  obtain ⟨f1, f2, f3, f4, f5, _⟩ := merged1E_fields env rin x
  obtain ⟨e1, e2, e3, e4, e5⟩ := hne
  have hfc : fieldChanged rin
      (overwriteFrom { merged1E env rin x with updated_at := some now } x) = false := by
    apply fieldChanged_false
    · rw [show (overwriteFrom { merged1E env rin x with updated_at := some now } x).sold_date
          = adoptF rin.sold_date x.sold_date from f1]
      exact adoptB_adoptF rin.sold_date x.sold_date e1
    · rw [show (overwriteFrom { merged1E env rin x with updated_at := some now } x).sold_price
          = adoptF rin.sold_price x.sold_price from f2]
      exact adoptB_adoptF rin.sold_price x.sold_price e2
    · rw [show (overwriteFrom { merged1E env rin x with updated_at := some now } x).name
          = adoptF rin.name x.name from f3]
      exact adoptB_adoptF rin.name x.name e3
    · rw [show (overwriteFrom { merged1E env rin x with updated_at := some now } x).location
          = adoptF rin.location x.location from f4]
      exact adoptB_adoptF rin.location x.location e4
    · rw [show (overwriteFrom { merged1E env rin x with updated_at := some now } x).buy_price
          = adoptF rin.buy_price x.buy_price from f5]
      exact adoptB_adoptF rin.buy_price x.buy_price e5
  cases hres : env.resolveImg rin with
  | none => simpa only [eqChanged, hres] using hfc
  | some src =>
    simp only [eqChanged, hres]
    have hcc : copyCondB env rin
        (overwriteFrom { merged1E env rin x with updated_at := some now } x).image_hash
        src = false := by
      show copyCondB env rin (merged1E env rin x).image_hash src = false
      exact merged1E_cc_false env rin x src hres (himg src hres)
    rw [hcc]
    simpa using hfc

theorem copiedFlag_zero (env : MergeEnv) (rin y : Rec)
    (hec : eqChanged env rin y = false) : copiedFlag env rin y.image_hash = 0 := by
  cases hres : env.resolveImg rin with
  | none => simp [copiedFlag, hres]
  | some src =>
    simp only [copiedFlag, hres]
    rw [eqChanged_cc_false env rin y src hres hec]
    simp


theorem rowEffect_idem (env : MergeEnv) (now1 now2 : Int) (rin x : Rec)
    (hne : noEmptyFields rin) (himg : imageCoherent env rin)
    (hnow : orZeroI rin.updated_at ≤ now1) :
    rowEffect env now2 rin (rowEffect env now1 rin x) = rowEffect env now1 rin x := by
  by_cases hdel : truthyI rin.deleted_at = true
  · by_cases htomb : tombApply rin x = true
    · have hx1 : rowEffect env now1 rin x =
          { x with
            deleted_at := some (rin.deleted_at.getD 0),
            updated_at := some (rin.deleted_at.getD 0) } := by
        unfold rowEffect
        rw [if_pos hdel, if_pos htomb]
      rw [hx1]
      unfold rowEffect
      rw [if_pos hdel, if_pos (tombApply_self rin x)]
    · have hx1 : rowEffect env now1 rin x = x := by
        unfold rowEffect
        rw [if_pos hdel, if_neg htomb]
      rw [hx1]
      unfold rowEffect
      rw [if_pos hdel, if_neg htomb]
  · by_cases hgt : orZeroI rin.updated_at > orZeroI x.updated_at
    · have hx1 : rowEffect env now1 rin x = overwriteFrom (rin1U env rin x.image_hash) x := by
        unfold rowEffect
        rw [if_neg hdel, if_pos hgt]
      rw [hx1]
      have hup : (overwriteFrom (rin1U env rin x.image_hash) x).updated_at =
          rin.updated_at := (rin1U_fields env rin x.image_hash).2.2.2.2.2.1
      unfold rowEffect
      rw [if_neg hdel]
      rw [if_neg (show ¬ (orZeroI rin.updated_at >
          orZeroI (overwriteFrom (rin1U env rin x.image_hash) x).updated_at) by
        rw [hup]
        omega)]
      rw [if_pos (show orZeroI rin.updated_at =
          orZeroI (overwriteFrom (rin1U env rin x.image_hash) x).updated_at by
        rw [hup])]
      rw [if_neg (show ¬ (eqChanged env rin
          (overwriteFrom (rin1U env rin x.image_hash) x) = true) by
        rw [eqChanged_afterA env rin x hne himg]
        simp)]
    · by_cases heq : orZeroI rin.updated_at = orZeroI x.updated_at
      · by_cases hch : eqChanged env rin x = true
        · have hx1 : rowEffect env now1 rin x =
              overwriteFrom { merged1E env rin x with updated_at := some now1 } x := by
            unfold rowEffect
            rw [if_neg hdel, if_neg hgt, if_pos heq, if_pos hch]
          rw [hx1]
          have hup : (overwriteFrom
              { merged1E env rin x with updated_at := some now1 } x).updated_at =
              some now1 := rfl
          unfold rowEffect
          rw [if_neg hdel]
          rw [if_neg (show ¬ (orZeroI rin.updated_at >
              orZeroI (overwriteFrom
                { merged1E env rin x with updated_at := some now1 } x).updated_at) by
            rw [hup]
            show ¬ (orZeroI rin.updated_at > now1)
            omega)]
          by_cases h2 : orZeroI rin.updated_at =
              orZeroI (overwriteFrom
                { merged1E env rin x with updated_at := some now1 } x).updated_at
          · rw [if_pos h2]
            rw [if_neg (show ¬ (eqChanged env rin
                (overwriteFrom
                  { merged1E env rin x with updated_at := some now1 } x) = true) by
              rw [eqChanged_afterB env now1 rin x hne himg]
              simp)]
          · rw [if_neg h2]
        · have hx1 : rowEffect env now1 rin x = x := by
            unfold rowEffect
            rw [if_neg hdel, if_neg hgt, if_pos heq, if_neg hch]
          rw [hx1]
          unfold rowEffect
          rw [if_neg hdel, if_neg hgt, if_pos heq, if_neg hch]
      · have hx1 : rowEffect env now1 rin x = x := by
          unfold rowEffect
          rw [if_neg hdel, if_neg hgt, if_neg heq]
        rw [hx1]
        unfold rowEffect
        rw [if_neg hdel, if_neg hgt, if_neg heq]


theorem statOf_after (env : MergeEnv) (now1 : Int) (rin x : Rec)
    (hne : noEmptyFields rin) (himg : imageCoherent env rin)
    (hnow : orZeroI rin.updated_at ≤ now1) :
    statOf env rin (some (rowEffect env now1 rin x)) =
      (if truthyI rin.deleted_at = true ∧ tombApply rin x = true then
        ({ deleted := 1 } : Stats)
      else ({ skipped := 1 } : Stats)) := by
  by_cases hdel : truthyI rin.deleted_at = true
  · by_cases htomb : tombApply rin x = true
    · rw [if_pos ⟨hdel, htomb⟩]
      have hx1 : rowEffect env now1 rin x =
          { x with
            deleted_at := some (rin.deleted_at.getD 0),
            updated_at := some (rin.deleted_at.getD 0) } := by
        unfold rowEffect
        rw [if_pos hdel, if_pos htomb]
      rw [hx1]
      simp only [statOf]
      rw [if_pos hdel, if_pos (tombApply_self rin x)]
    · rw [if_neg (fun h => htomb h.2)]
      have hx1 : rowEffect env now1 rin x = x := by
        unfold rowEffect
        rw [if_pos hdel, if_neg htomb]
      rw [hx1]
      simp only [statOf]
      rw [if_pos hdel, if_neg htomb]
  · rw [if_neg (fun h => hdel h.1)]
    by_cases hgt : orZeroI rin.updated_at > orZeroI x.updated_at
    · have hx1 : rowEffect env now1 rin x = overwriteFrom (rin1U env rin x.image_hash) x := by
        unfold rowEffect
        rw [if_neg hdel, if_pos hgt]
      rw [hx1]
      have hup : (overwriteFrom (rin1U env rin x.image_hash) x).updated_at =
          rin.updated_at := (rin1U_fields env rin x.image_hash).2.2.2.2.2.1
      have hec := eqChanged_afterA env rin x hne himg
      simp only [statOf]
      rw [if_neg hdel]
      rw [if_neg (show ¬ (orZeroI rin.updated_at >
          orZeroI (overwriteFrom (rin1U env rin x.image_hash) x).updated_at) by
        rw [hup]
        omega)]
      rw [if_pos (show orZeroI rin.updated_at =
          orZeroI (overwriteFrom (rin1U env rin x.image_hash) x).updated_at by
        rw [hup])]
      rw [if_neg (show ¬ (eqChanged env rin
          (overwriteFrom (rin1U env rin x.image_hash) x) = true) by
        rw [hec]
        simp)]
      rw [copiedFlag_zero env rin _ hec]
    · by_cases heq : orZeroI rin.updated_at = orZeroI x.updated_at
      · by_cases hch : eqChanged env rin x = true
        · have hx1 : rowEffect env now1 rin x =
              overwriteFrom { merged1E env rin x with updated_at := some now1 } x := by
            unfold rowEffect
            rw [if_neg hdel, if_neg hgt, if_pos heq, if_pos hch]
          rw [hx1]
          have hec := eqChanged_afterB env now1 rin x hne himg
          simp only [statOf]
          rw [if_neg hdel]
          rw [if_neg (show ¬ (orZeroI rin.updated_at >
              orZeroI (overwriteFrom
                { merged1E env rin x with updated_at := some now1 } x).updated_at) by
            show ¬ (orZeroI rin.updated_at > now1)
            omega)]
          by_cases h2 : orZeroI rin.updated_at =
              orZeroI (overwriteFrom
                { merged1E env rin x with updated_at := some now1 } x).updated_at
          · rw [if_pos h2]
            rw [if_neg (show ¬ (eqChanged env rin
                (overwriteFrom
                  { merged1E env rin x with updated_at := some now1 } x) = true) by
              rw [hec]
              simp)]
            rw [copiedFlag_zero env rin _ hec]
          · rw [if_neg h2]
        · have hx1 : rowEffect env now1 rin x = x := by
            unfold rowEffect
            rw [if_neg hdel, if_neg hgt, if_pos heq, if_neg hch]
          rw [hx1]
          have hec : eqChanged env rin x = false := by simpa using hch
          simp only [statOf]
          rw [if_neg hdel, if_neg hgt, if_pos heq, if_neg hch]
          rw [copiedFlag_zero env rin x hec]
      · have hx1 : rowEffect env now1 rin x = x := by
          unfold rowEffect
          rw [if_neg hdel, if_neg hgt, if_neg heq]
        rw [hx1]
        simp only [statOf]
        rw [if_neg hdel, if_neg hgt, if_neg heq]

theorem imgsAfter_after (env : MergeEnv) (now1 : Int) (rin x : Rec)
    (hne : noEmptyFields rin) (himg : imageCoherent env rin) (im : List String) :
    imgsAfter env rin (some (rowEffect env now1 rin x)) im = im := by
  by_cases hdel : truthyI rin.deleted_at = true
  · simp only [imgsAfter]
    rw [if_pos hdel]
  · by_cases hgt : orZeroI rin.updated_at > orZeroI x.updated_at
    · have hx1 : rowEffect env now1 rin x = overwriteFrom (rin1U env rin x.image_hash) x := by
        unfold rowEffect
        rw [if_neg hdel, if_pos hgt]
      rw [hx1]
      have hup : (overwriteFrom (rin1U env rin x.image_hash) x).updated_at =
          rin.updated_at := (rin1U_fields env rin x.image_hash).2.2.2.2.2.1
      have hec := eqChanged_afterA env rin x hne himg
      cases hres : env.resolveImg rin with
      | none =>
        simp only [imgsAfter, hres]
        rw [if_neg hdel]
        rw [if_pos (show orZeroI rin.updated_at ≥
            orZeroI (overwriteFrom (rin1U env rin x.image_hash) x).updated_at by
          rw [hup])]
      | some src =>
        simp only [imgsAfter, hres]
        rw [if_neg hdel]
        rw [if_pos (show orZeroI rin.updated_at ≥
            orZeroI (overwriteFrom (rin1U env rin x.image_hash) x).updated_at by
          rw [hup])]
        rw [if_neg (show ¬ (copyCondB env rin
            (overwriteFrom (rin1U env rin x.image_hash) x).image_hash src = true) by
          rw [eqChanged_cc_false env rin _ src hres hec]
          simp)]
    · by_cases heq : orZeroI rin.updated_at = orZeroI x.updated_at
      · by_cases hch : eqChanged env rin x = true
        · have hx1 : rowEffect env now1 rin x =
              overwriteFrom { merged1E env rin x with updated_at := some now1 } x := by
            unfold rowEffect
            rw [if_neg hdel, if_neg hgt, if_pos heq, if_pos hch]
          rw [hx1]
          have hec := eqChanged_afterB env now1 rin x hne himg
          cases hres : env.resolveImg rin with
          | none =>
            simp only [imgsAfter, hres]
            rw [if_neg hdel]
            by_cases h2 : orZeroI rin.updated_at ≥
                orZeroI (overwriteFrom
                  { merged1E env rin x with updated_at := some now1 } x).updated_at
            · rw [if_pos h2]
            · rw [if_neg h2]
          | some src =>
            simp only [imgsAfter, hres]
            rw [if_neg hdel]
            by_cases h2 : orZeroI rin.updated_at ≥
                orZeroI (overwriteFrom
                  { merged1E env rin x with updated_at := some now1 } x).updated_at
            · rw [if_pos h2]
              rw [if_neg (show ¬ (copyCondB env rin
                  (overwriteFrom
                    { merged1E env rin x with updated_at := some now1 } x).image_hash
                  src = true) by
                rw [eqChanged_cc_false env rin _ src hres hec]
                simp)]
            · rw [if_neg h2]
        · have hx1 : rowEffect env now1 rin x = x := by
            unfold rowEffect
            rw [if_neg hdel, if_neg hgt, if_pos heq, if_neg hch]
          rw [hx1]
          have hec : eqChanged env rin x = false := by simpa using hch
          cases hres : env.resolveImg rin with
          | none =>
            simp only [imgsAfter, hres]
            rw [if_neg hdel]
            rw [if_pos (show orZeroI rin.updated_at ≥ orZeroI x.updated_at from
              le_of_eq heq.symm)]
          | some src =>
            simp only [imgsAfter, hres]
            rw [if_neg hdel]
            rw [if_pos (show orZeroI rin.updated_at ≥ orZeroI x.updated_at from
              le_of_eq heq.symm)]
            rw [if_neg (show ¬ (copyCondB env rin x.image_hash src = true) by
              rw [eqChanged_cc_false env rin x src hres hec]
              simp)]
      · have hx1 : rowEffect env now1 rin x = x := by
          unfold rowEffect
          rw [if_neg hdel, if_neg hgt, if_neg heq]
        rw [hx1]
        simp only [imgsAfter]
        rw [if_neg hdel]
        rw [if_neg (show ¬ (orZeroI rin.updated_at ≥ orZeroI x.updated_at) by omega)]


theorem imgsAfter_tomb (env : MergeEnv) (rin : Rec) (rl : Option Rec)
    (im : List String) (hdel : truthyI rin.deleted_at = true) :
    imgsAfter env rin rl im = im := by
  cases rl <;> simp [imgsAfter, hdel]

theorem statsFold_proj (env : MergeEnv) (snap : List (String × Rec)) (f : Stats → Nat)
    (hadd : ∀ a b, f (Stats.add a b) = f a + f b) :
    ∀ (l : List (String × Rec)) (s : Stats),
    f (statsFold env snap l s) =
      f s + (l.map (fun p => f (statOf env p.2 (dget snap p.1)))).sum
  | [], s => by simp [statsFold]
  | p :: ps, s => by
    simp only [statsFold, List.map_cons, List.sum_cons]
    rw [statsFold_proj env snap f hadd ps (s.add (statOf env p.2 (dget snap p.1)))]
    rw [hadd]
    omega

theorem imgsFold_noop (env : MergeEnv) (snap : List (String × Rec)) :
    ∀ (l : List (String × Rec)) (im : List String),
    (∀ p ∈ l, ∀ im2 : List String, imgsAfter env p.2 (dget snap p.1) im2 = im2) →
    imgsFold env snap l im = im
  | [], im, _ => rfl
  | p :: ps, im, h => by
    simp only [imgsFold]
    rw [h p (by simp) im]
    exact imgsFold_noop env snap ps im (fun q hq => h q (by simp [hq]))

theorem passSim_nil_of_present (env : MergeEnv) (now : Int) (snap : List (String × Rec)) :
    ∀ (l : List (String × Rec)) (tc : Nat),
    (∀ p ∈ l, truthyI p.2.deleted_at = false → (dget snap p.1).isSome) →
    (passSim env now snap l tc).1 = []
  | [], _, _ => rfl
  | p :: ps, tc, h => by
    simp only [passSim]
    have h1 : (stepAppend env now p.2 (dget snap p.1) tc).1 = [] := by
      cases hd : dget snap p.1 with
      | some x => exact stepAppend_some_nil env now p.2 x tc
      | none =>
        by_cases hdel : truthyI p.2.deleted_at = true
        · simp [stepAppend, hdel]
        · have := h p (by simp) (by simpa using hdel)
          rw [hd] at this
          simp at this
    rw [h1, List.nil_append]
    exact passSim_nil_of_present env now snap ps _
      (fun q hq => h q (by simp [hq]))

theorem find?_pairs_self (r : Rec) :
    ∀ l : List Rec, (l.map Rec.id).Nodup → r ∈ l →
    (pairsOf l).find? (fun q => q.1 == r.id) = some (r.id, r)
  | [], _, hr => by simp at hr
  | y :: ys, hnd, hr => by
    rw [List.map_cons] at hnd
    have hnd2 := List.nodup_cons.mp hnd
    rcases List.mem_cons.mp hr with hr1 | hr2
    · subst hr1
      simp only [pairsOf, List.map_cons, List.find?_cons]
      rw [show (r.id == r.id) = true by simp]
    · have hne : y.id ≠ r.id := fun hc =>
        hnd2.1 (List.mem_map.mpr ⟨r, hr2, hc.symm⟩)
      simp only [pairsOf, List.map_cons, List.find?_cons]
      rw [show (y.id == r.id) = false by simpa using hne]
      exact find?_pairs_self r ys hnd2.2 hr2

theorem statOf_deleted_some (env : MergeEnv) (rin x : Rec) :
    (statOf env rin (some x)).deleted =
      if truthyI rin.deleted_at = true ∧ tombApply rin x = true then 1 else 0 := by
  by_cases hdel : truthyI rin.deleted_at = true
  · by_cases htomb : tombApply rin x = true
    · rw [if_pos ⟨hdel, htomb⟩]
      simp only [statOf]
      rw [if_pos hdel, if_pos htomb]
    · rw [if_neg (fun h => htomb h.2)]
      simp only [statOf]
      rw [if_pos hdel, if_neg htomb]
  · rw [if_neg (fun h => hdel h.1)]
    simp only [statOf]
    rw [if_neg hdel]
    by_cases hgt : orZeroI rin.updated_at > orZeroI x.updated_at
    · rw [if_pos hgt]
    · rw [if_neg hgt]
      by_cases heq : orZeroI rin.updated_at = orZeroI x.updated_at
      · rw [if_pos heq]
        split <;> rfl
      · rw [if_neg heq]

theorem map_effApply_ids (env : MergeEnv) (now : Int) (inc : List (String × Rec))
    (rows : List Rec) :
    (rows.map (effApply env now inc)).map Rec.id = rows.map Rec.id := by
  rw [List.map_map]
  apply List.map_congr_left
  intro y _
  exact effApply_id env now inc y

theorem effApply_idem (env : MergeEnv) (now1 now2 : Int) (inc : List (String × Rec))
    (h : ∀ p ∈ inc, noEmptyFields p.2 ∧ imageCoherent env p.2 ∧
      orZeroI p.2.updated_at ≤ now1) (y : Rec) :
    effApply env now2 inc (effApply env now1 inc y) = effApply env now1 inc y := by
  cases hf : inc.find? (fun q => q.1 == y.id) with
  | none =>
    have h1 : effApply env now1 inc y = y := by
      unfold effApply
      rw [hf]
    rw [h1]
    unfold effApply
    rw [hf]
  | some p =>
    have h1 : effApply env now1 inc y = rowEffect env now1 p.2 y := by
      unfold effApply
      rw [hf]
    rw [h1]
    have hid : (rowEffect env now1 p.2 y).id = y.id := rowEffect_id env now1 p.2 y
    have h2 : inc.find? (fun q => q.1 == (rowEffect env now1 p.2 y).id) = some p := by
      rw [hid]
      exact hf
    have hp := h p (List.mem_of_find?_eq_some hf)
    unfold effApply
    rw [h2]
    exact rowEffect_idem env now1 now2 p.2 y hp.1 hp.2.1 hp.2.2


theorem sum_ones : ∀ l : List (String × Rec), (l.map (fun _ => (1 : Nat))).sum = l.length
  | [] => rfl
  | p :: ps => by
    simp only [List.map_cons, List.sum_cons, List.length_cons]
    rw [sum_ones ps]
    omega

theorem sum_pair_one : ∀ (l : List (String × Rec)) (f g : (String × Rec) → Nat),
    (∀ p ∈ l, f p + g p = 1) → (l.map f).sum + (l.map g).sum = l.length
  | [], _, _, _ => rfl
  | p :: ps, f, g, h => by
    simp only [List.map_cons, List.sum_cons, List.length_cons]
    have hrec := sum_pair_one ps f g (fun q hq => h q (by simp [hq]))
    have hp := h p (by simp)
    omega

theorem statsFold_inserted (env : MergeEnv) (snap : List (String × Rec))
    (l : List (String × Rec)) (s : Stats) :
    (statsFold env snap l s).inserted =
      s.inserted + (l.map (fun p => (statOf env p.2 (dget snap p.1)).inserted)).sum :=
  statsFold_proj env snap (fun t => t.inserted) (fun _ _ => rfl) l s

theorem statsFold_updated (env : MergeEnv) (snap : List (String × Rec))
    (l : List (String × Rec)) (s : Stats) :
    (statsFold env snap l s).updated =
      s.updated + (l.map (fun p => (statOf env p.2 (dget snap p.1)).updated)).sum :=
  statsFold_proj env snap (fun t => t.updated) (fun _ _ => rfl) l s

theorem statsFold_deleted (env : MergeEnv) (snap : List (String × Rec))
    (l : List (String × Rec)) (s : Stats) :
    (statsFold env snap l s).deleted =
      s.deleted + (l.map (fun p => (statOf env p.2 (dget snap p.1)).deleted)).sum :=
  statsFold_proj env snap (fun t => t.deleted) (fun _ _ => rfl) l s

theorem statsFold_images (env : MergeEnv) (snap : List (String × Rec))
    (l : List (String × Rec)) (s : Stats) :
    (statsFold env snap l s).images_copied =
      s.images_copied +
        (l.map (fun p => (statOf env p.2 (dget snap p.1)).images_copied)).sum :=
  statsFold_proj env snap (fun t => t.images_copied) (fun _ _ => rfl) l s

theorem statsFold_skipped (env : MergeEnv) (snap : List (String × Rec))
    (l : List (String × Rec)) (s : Stats) :
    (statsFold env snap l s).skipped =
      s.skipped + (l.map (fun p => (statOf env p.2 (dget snap p.1)).skipped)).sum :=
  statsFold_proj env snap (fun t => t.skipped) (fun _ _ => rfl) l s

/-- C1 (amended): merging the same incoming store twice is idempotent for
stores that avoid the code's rough edges: all ids nonempty and distinct,
every live incoming record already present locally (the insert path depends
on the connection-lifetime total_changes counter), no mergeable field holding
the empty string (an equal empty string is re-adopted and re-stamped every
pass), incoming image hashes coherent with their resolved files, and a first
clock at or after every incoming timestamp.  The second pass then leaves the
rows and image directory unchanged, inserts, updates and copies nothing, and
re-counts exactly the first pass's deletions, skipping all other records. -/
theorem C1_merge_idempotent_amended (env : MergeEnv) (gen : Nat → String) (now1 now2 : Int)
    (incRows : List Rec) (conn0 : Conn) (imgs0 : List String) (n0 : Nat)
    (hi1 : ∀ r ∈ incRows, r.id ≠ "") (hi2 : (incRows.map Rec.id).Nodup)
    (hl1 : ∀ r ∈ conn0.rows, r.id ≠ "") (hl2 : (conn0.rows.map Rec.id).Nodup)
    (hpres : ∀ r ∈ incRows, truthyI r.deleted_at = false → getRow conn0.rows r.id ≠ none)
    (hne : ∀ r ∈ incRows, noEmptyFields r)
    (himg : ∀ r ∈ incRows, imageCoherent env r)
    (hnow : ∀ r ∈ incRows, orZeroI r.updated_at ≤ now1)
    (st1 st2 : MState)
    (hst1 : st1 = (merge_zip_into_local env gen now1 incRows conn0 imgs0 n0).1)
    (hst2 : st2 = (merge_zip_into_local env gen now2 incRows st1.conn st1.imgs n0).1) :
    st2.conn.rows = st1.conn.rows ∧ st2.imgs = st1.imgs ∧
      st2.stats.inserted = 0 ∧ st2.stats.updated = 0 ∧ st2.stats.images_copied = 0 ∧
      st2.stats.deleted = st1.stats.deleted ∧
      st2.stats.skipped = incRows.length - st1.stats.deleted := by
  have hm1 : (merge_zip_into_local env gen now1 incRows conn0 imgs0 n0).1 =
      MState.mk (Conn.mk (conn0.rows.map (effApply env now1 (pairsOf incRows))) ((passSim env now1 (pairsOf conn0.rows) (pairsOf incRows) conn0.tc).2)) (imgsFold env (pairsOf conn0.rows) (pairsOf incRows) imgs0) (statsFold env (pairsOf conn0.rows) (pairsOf incRows) {}) := by
    rw [merge_char env gen now1 incRows conn0 imgs0 n0 hi1 hi2 hl1 hl2]
    have hnil : (passSim env now1 (pairsOf conn0.rows) (pairsOf incRows) conn0.tc).1 = [] := by
      apply passSim_nil_of_present
      intro p hp hlive
      obtain ⟨r, hr, hpr⟩ := List.mem_map.mp hp
      subst hpr
      show (dget (pairsOf conn0.rows) r.id).isSome = true
      rw [show pairsOf conn0.rows = conn0.rows.map (fun t => (t.id, t)) from rfl, dget_pairs]
      have hp2 := hpres r hr (by simpa using hlive)
      cases hg : getRow conn0.rows r.id
      · exact absurd hg hp2
      · simp
    simp only [hnil, List.append_nil]
  have hrows1_ne : ∀ r ∈ (conn0.rows.map (effApply env now1 (pairsOf incRows))), r.id ≠ "" := by
    intro y hy
    obtain ⟨z, hz, hzy⟩ := List.mem_map.mp hy
    rw [← hzy, effApply_id]
    exact hl1 z hz
  have hrows1_nd : ((conn0.rows.map (effApply env now1 (pairsOf incRows))).map Rec.id).Nodup := by
    rw [map_effApply_ids]
    exact hl2
  have hcases : ∀ r ∈ incRows,
      (truthyI r.deleted_at = true ∧ dget (pairsOf conn0.rows) r.id = none ∧
        dget (pairsOf (conn0.rows.map (effApply env now1 (pairsOf incRows)))) r.id = none) ∨
      (∃ x0, dget (pairsOf conn0.rows) r.id = some x0 ∧
        dget (pairsOf (conn0.rows.map (effApply env now1 (pairsOf incRows)))) r.id = some (rowEffect env now1 r x0)) := by
    intro r hr
    have hdg1 : dget (pairsOf conn0.rows) r.id = getRow conn0.rows r.id := by
      rw [show pairsOf conn0.rows = conn0.rows.map (fun t => (t.id, t)) from rfl, dget_pairs]
    have hdg2 : dget (pairsOf (conn0.rows.map (effApply env now1 (pairsOf incRows)))) r.id = getRow (conn0.rows.map (effApply env now1 (pairsOf incRows))) r.id := by
      rw [show pairsOf (conn0.rows.map (effApply env now1 (pairsOf incRows))) = (conn0.rows.map (effApply env now1 (pairsOf incRows))).map (fun t => (t.id, t)) from rfl, dget_pairs]
    have hmapped : getRow (conn0.rows.map (effApply env now1 (pairsOf incRows))) r.id =
        (getRow conn0.rows r.id).map (effApply env now1 (pairsOf incRows)) :=
      getRow_map_idpres (effApply env now1 (pairsOf incRows))
        (effApply_id env now1 (pairsOf incRows)) conn0.rows r.id
    cases hg : getRow conn0.rows r.id with
    | none =>
      left
      refine ⟨?_, by rw [hdg1, hg], by rw [hdg2, hmapped, hg]; rfl⟩
      by_cases hdel : truthyI r.deleted_at = true
      · exact hdel
      · exact absurd hg (hpres r hr (by simpa using hdel))
    | some x0 =>
      right
      refine ⟨x0, by rw [hdg1, hg], ?_⟩
      rw [hdg2, hmapped, hg]
      have hx0id : x0.id = r.id := by
        have := List.find?_some hg
        simpa using this
      have heff : effApply env now1 (pairsOf incRows) x0 = rowEffect env now1 r x0 := by
        unfold effApply
        rw [hx0id, find?_pairs_self r incRows hi2 hr]
      show some (effApply env now1 (pairsOf incRows) x0) = some (rowEffect env now1 r x0)
      rw [heff]
  have hm2 : (merge_zip_into_local env gen now2 incRows (Conn.mk (conn0.rows.map (effApply env now1 (pairsOf incRows))) ((passSim env now1 (pairsOf conn0.rows) (pairsOf incRows) conn0.tc).2))
      (imgsFold env (pairsOf conn0.rows) (pairsOf incRows) imgs0) n0).1 =
      MState.mk
        (Conn.mk ((conn0.rows.map (effApply env now1 (pairsOf incRows))).map (effApply env now2 (pairsOf incRows)))
          (passSim env now2 (pairsOf (conn0.rows.map (effApply env now1 (pairsOf incRows)))) (pairsOf incRows) ((passSim env now1 (pairsOf conn0.rows) (pairsOf incRows) conn0.tc).2)).2)
        (imgsFold env (pairsOf (conn0.rows.map (effApply env now1 (pairsOf incRows)))) (pairsOf incRows) (imgsFold env (pairsOf conn0.rows) (pairsOf incRows) imgs0))
        (statsFold env (pairsOf (conn0.rows.map (effApply env now1 (pairsOf incRows)))) (pairsOf incRows) {}) := by
    rw [merge_char env gen now2 incRows (Conn.mk (conn0.rows.map (effApply env now1 (pairsOf incRows))) ((passSim env now1 (pairsOf conn0.rows) (pairsOf incRows) conn0.tc).2)) (imgsFold env (pairsOf conn0.rows) (pairsOf incRows) imgs0) n0
      hi1 hi2 hrows1_ne hrows1_nd]
    have hnil : (passSim env now2 (pairsOf (conn0.rows.map (effApply env now1 (pairsOf incRows)))) (pairsOf incRows) ((passSim env now1 (pairsOf conn0.rows) (pairsOf incRows) conn0.tc).2)).1 = [] := by
      apply passSim_nil_of_present
      intro p hp hlive
      obtain ⟨r, hr, hpr⟩ := List.mem_map.mp hp
      subst hpr
      show (dget (pairsOf (conn0.rows.map (effApply env now1 (pairsOf incRows)))) r.id).isSome = true
      rcases hcases r hr with ⟨hdel, _, _⟩ | ⟨x0, _, hsome⟩
      · rw [hdel] at hlive
        exact absurd hlive (by simp)
      · rw [hsome]
        rfl
    simp only [hnil, List.append_nil]
  have hsub : ∀ p ∈ pairsOf incRows, ∃ r ∈ incRows, p = (r.id, r) := by
    intro p hp
    obtain ⟨r, hr, hpr⟩ := List.mem_map.mp hp
    exact ⟨r, hr, hpr.symm⟩
  have hdeq : ((pairsOf incRows).map (fun p =>
      (statOf env p.2 (dget (pairsOf (conn0.rows.map (effApply env now1 (pairsOf incRows)))) p.1)).deleted)) =
      ((pairsOf incRows).map (fun p =>
      (statOf env p.2 (dget (pairsOf conn0.rows) p.1)).deleted)) := by
    apply List.map_congr_left
    intro p hp
    obtain ⟨r, hr, hpr⟩ := hsub p hp
    subst hpr
    rcases hcases r hr with ⟨hdel, hnone0, hnone⟩ | ⟨x0, hsome0, hsome⟩
    · show (statOf env r (dget (pairsOf (conn0.rows.map (effApply env now1 (pairsOf incRows)))) r.id)).deleted =
        (statOf env r (dget (pairsOf conn0.rows) r.id)).deleted
      rw [hnone, hnone0]
    · show (statOf env r (dget (pairsOf (conn0.rows.map (effApply env now1 (pairsOf incRows)))) r.id)).deleted =
        (statOf env r (dget (pairsOf conn0.rows) r.id)).deleted
      rw [hsome, hsome0, statOf_after env now1 r x0 (hne r hr) (himg r hr) (hnow r hr),
        statOf_deleted_some env r x0]
      by_cases hc : truthyI r.deleted_at = true ∧ tombApply r x0 = true
      · rw [if_pos hc, if_pos hc]
      · rw [if_neg hc, if_neg hc]
  subst hst1
  subst hst2
  rw [hm1]
  dsimp only
  rw [hm2]
  dsimp only
  refine ⟨?_, ?_, ?_, ?_, ?_, ?_, ?_⟩
  · rw [List.map_map]
    apply List.map_congr_left
    intro y _
    exact effApply_idem env now1 now2 (pairsOf incRows)
      (by
        intro p hp
        obtain ⟨r, hr, hpr⟩ := hsub p hp
        subst hpr
        exact ⟨hne r hr, himg r hr, hnow r hr⟩) y
  · apply imgsFold_noop
    intro p hp im2
    obtain ⟨r, hr, hpr⟩ := hsub p hp
    subst hpr
    rcases hcases r hr with ⟨hdel, _, hnone⟩ | ⟨x0, _, hsome⟩
    · show imgsAfter env r (dget (pairsOf (conn0.rows.map (effApply env now1 (pairsOf incRows)))) r.id) im2 = im2
      rw [hnone]
      exact imgsAfter_tomb env r none im2 hdel
    · show imgsAfter env r (dget (pairsOf (conn0.rows.map (effApply env now1 (pairsOf incRows)))) r.id) im2 = im2
      rw [hsome]
      exact imgsAfter_after env now1 r x0 (hne r hr) (himg r hr) im2
  · rw [statsFold_inserted]
    have hz : ((pairsOf incRows).map (fun p =>
        (statOf env p.2 (dget (pairsOf (conn0.rows.map (effApply env now1 (pairsOf incRows)))) p.1)).inserted)).sum = 0 := by
      apply List.sum_eq_zero
      intro t ht
      obtain ⟨p, hp, hpt⟩ := List.mem_map.mp ht
      obtain ⟨r, hr, hpr⟩ := hsub p hp
      subst hpr
      rw [← hpt]
      rcases hcases r hr with ⟨hdel, _, hnone⟩ | ⟨x0, _, hsome⟩
      · show (statOf env r (dget (pairsOf (conn0.rows.map (effApply env now1 (pairsOf incRows)))) r.id)).inserted = 0
        rw [hnone]
        simp only [statOf]
        rw [if_pos hdel]
      · show (statOf env r (dget (pairsOf (conn0.rows.map (effApply env now1 (pairsOf incRows)))) r.id)).inserted = 0
        rw [hsome, statOf_after env now1 r x0 (hne r hr) (himg r hr) (hnow r hr)]
        split <;> rfl
    rw [hz]
  · rw [statsFold_updated]
    have hz : ((pairsOf incRows).map (fun p =>
        (statOf env p.2 (dget (pairsOf (conn0.rows.map (effApply env now1 (pairsOf incRows)))) p.1)).updated)).sum = 0 := by
      apply List.sum_eq_zero
      intro t ht
      obtain ⟨p, hp, hpt⟩ := List.mem_map.mp ht
      obtain ⟨r, hr, hpr⟩ := hsub p hp
      subst hpr
      rw [← hpt]
      rcases hcases r hr with ⟨hdel, _, hnone⟩ | ⟨x0, _, hsome⟩
      · show (statOf env r (dget (pairsOf (conn0.rows.map (effApply env now1 (pairsOf incRows)))) r.id)).updated = 0
        rw [hnone]
        simp only [statOf]
        rw [if_pos hdel]
      · show (statOf env r (dget (pairsOf (conn0.rows.map (effApply env now1 (pairsOf incRows)))) r.id)).updated = 0
        rw [hsome, statOf_after env now1 r x0 (hne r hr) (himg r hr) (hnow r hr)]
        split <;> rfl
    rw [hz]
  · rw [statsFold_images]
    have hz : ((pairsOf incRows).map (fun p =>
        (statOf env p.2 (dget (pairsOf (conn0.rows.map (effApply env now1 (pairsOf incRows)))) p.1)).images_copied)).sum = 0 := by
      apply List.sum_eq_zero
      intro t ht
      obtain ⟨p, hp, hpt⟩ := List.mem_map.mp ht
      obtain ⟨r, hr, hpr⟩ := hsub p hp
      subst hpr
      rw [← hpt]
      rcases hcases r hr with ⟨hdel, _, hnone⟩ | ⟨x0, _, hsome⟩
      · show (statOf env r (dget (pairsOf (conn0.rows.map (effApply env now1 (pairsOf incRows)))) r.id)).images_copied = 0
        rw [hnone]
        simp only [statOf]
        rw [if_pos hdel]
      · show (statOf env r (dget (pairsOf (conn0.rows.map (effApply env now1 (pairsOf incRows)))) r.id)).images_copied = 0
        rw [hsome, statOf_after env now1 r x0 (hne r hr) (himg r hr) (hnow r hr)]
        split <;> rfl
    rw [hz]
  · rw [statsFold_deleted, statsFold_deleted, hdeq]
  · rw [statsFold_skipped, statsFold_deleted]
    have hsum := sum_pair_one (pairsOf incRows)
      (fun p => (statOf env p.2 (dget (pairsOf (conn0.rows.map (effApply env now1 (pairsOf incRows)))) p.1)).skipped)
      (fun p => (statOf env p.2 (dget (pairsOf (conn0.rows.map (effApply env now1 (pairsOf incRows)))) p.1)).deleted)
      (by
        intro p hp
        obtain ⟨r, hr, hpr⟩ := hsub p hp
        subst hpr
        rcases hcases r hr with ⟨hdel, _, hnone⟩ | ⟨x0, _, hsome⟩
        · show (statOf env r (dget (pairsOf (conn0.rows.map (effApply env now1 (pairsOf incRows)))) r.id)).skipped +
            (statOf env r (dget (pairsOf (conn0.rows.map (effApply env now1 (pairsOf incRows)))) r.id)).deleted = 1
          rw [hnone]
          simp only [statOf]
          rw [if_pos hdel]
          rfl
        · show (statOf env r (dget (pairsOf (conn0.rows.map (effApply env now1 (pairsOf incRows)))) r.id)).skipped +
            (statOf env r (dget (pairsOf (conn0.rows.map (effApply env now1 (pairsOf incRows)))) r.id)).deleted = 1
          rw [hsome, statOf_after env now1 r x0 (hne r hr) (himg r hr) (hnow r hr)]
          split <;> rfl)
    have hdsum : ((pairsOf incRows).map (fun p =>
        (statOf env p.2 (dget (pairsOf (conn0.rows.map (effApply env now1 (pairsOf incRows)))) p.1)).deleted)).sum =
        ((pairsOf incRows).map (fun p =>
        (statOf env p.2 (dget (pairsOf conn0.rows) p.1)).deleted)).sum := by
      rw [hdeq]
    have hlen : (pairsOf incRows).length = incRows.length := by
      simp [pairsOf]
    have h0a : (({} : Stats)).skipped = 0 := rfl
    have h0b : (({} : Stats)).deleted = 0 := rfl
    omega


theorem passSim_mem (env : MergeEnv) (now : Int) (snap : List (String × Rec)) :
    ∀ (l : List (String × Rec)) (tc : Nat) (y : Rec),
    y ∈ (passSim env now snap l tc).1 →
    ∃ p ∈ l, y.id = p.2.id ∧ truthyI p.2.deleted_at = false ∧ dget snap p.1 = none
  | [], _, y, hy => by simp [passSim] at hy
  | p :: ps, tc, y, hy => by
    simp only [passSim] at hy
    rcases List.mem_append.mp hy with h1 | h2
    · refine ⟨p, by simp, ?_⟩
      cases hd : dget snap p.1 with
      | some x =>
        rw [hd, stepAppend_some_nil] at h1
        simp at h1
      | none =>
        rw [hd] at h1
        by_cases hdel : truthyI p.2.deleted_at = true
        · simp [stepAppend, hdel] at h1
        · by_cases htc : tc = 0
          · simp only [stepAppend, hdel, Bool.false_eq_true, if_false, if_pos htc] at h1
            have hy2 : y = insRec env now p.2 := by simpa using h1
            exact ⟨by rw [hy2, insRec_id], by simpa using hdel, rfl⟩
          · simp only [stepAppend, hdel, Bool.false_eq_true, if_false, if_neg htc] at h1
            simp at h1
    · obtain ⟨q, hq, hrest⟩ := passSim_mem env now snap ps _ y h2
      exact ⟨q, by simp [hq], hrest⟩

theorem merge_row_result (env : MergeEnv) (gen : Nat → String) (now : Int)
    (incRows : List Rec) (conn0 : Conn) (imgs0 : List String) (n0 : Nat)
    (hi1 : ∀ r ∈ incRows, r.id ≠ "") (hi2 : (incRows.map Rec.id).Nodup)
    (hl1 : ∀ r ∈ conn0.rows, r.id ≠ "") (hl2 : (conn0.rows.map Rec.id).Nodup)
    (r : Rec) (hr : r ∈ incRows) :
    (getRow conn0.rows r.id = none → truthyI r.deleted_at = true →
      getRow (merge_zip_into_local env gen now incRows conn0 imgs0 n0).1.conn.rows r.id
        = none) ∧
    (∀ x, getRow conn0.rows r.id = some x →
      getRow (merge_zip_into_local env gen now incRows conn0 imgs0 n0).1.conn.rows r.id
        = some (rowEffect env now r x)) ∧
    (merge_zip_into_local env gen now incRows conn0 imgs0 n0).1.stats =
      statsFold env (pairsOf conn0.rows) (pairsOf incRows) {} := by
  rw [merge_char env gen now incRows conn0 imgs0 n0 hi1 hi2 hl1 hl2]
  dsimp only
  have hmapped : getRow (conn0.rows.map (effApply env now (pairsOf incRows))) r.id =
      (getRow conn0.rows r.id).map (effApply env now (pairsOf incRows)) :=
    getRow_map_idpres (effApply env now (pairsOf incRows))
      (effApply_id env now (pairsOf incRows)) conn0.rows r.id
  refine ⟨?_, ?_, rfl⟩
  · intro hnone hdel
    rw [getRow_append, hmapped, hnone]
    show (Option.map (effApply env now (pairsOf incRows)) none).or
      (getRow (passSim env now (pairsOf conn0.rows) (pairsOf incRows) conn0.tc).1 r.id)
      = none
    rw [show Option.map (effApply env now (pairsOf incRows)) (none : Option Rec) = none
      from rfl]
    have hex : getRow (passSim env now (pairsOf conn0.rows) (pairsOf incRows) conn0.tc).1
        r.id = none := by
      rw [getRow_eq_none]
      intro y hy
      obtain ⟨p, hp, hyid, hlive, _⟩ := passSim_mem env now (pairsOf conn0.rows)
        (pairsOf incRows) conn0.tc y hy
      obtain ⟨z, hz, hpz⟩ := List.mem_map.mp hp
      intro hcontra
      have hp2 : p.2 = z := by rw [← hpz]
      have hzr : z = r := List.inj_on_of_nodup_map hi2 hz hr (by
        rw [show Rec.id z = p.2.id by rw [hp2], ← hyid, hcontra])
      rw [hp2, hzr, hdel] at hlive
      simp at hlive
    rw [hex]
    rfl
  · intro x hx
    rw [getRow_append, hmapped, hx]
    have heff : effApply env now (pairsOf incRows) x = rowEffect env now r x := by
      have hx0id : x.id = r.id := by
        have := List.find?_some hx
        simpa using this
      unfold effApply
      rw [hx0id, find?_pairs_self r incRows hi2 hr]
    show (some (effApply env now (pairsOf incRows) x)).or _ = some (rowEffect env now r x)
    rw [Option.or_some, heff]

/-! ### Branch-level corollaries of `rowEffect` and `statOf` -/

theorem tombApply_iff (rin x : Rec) :
    tombApply rin x = true ↔
      (truthyI x.updated_at = false ∨ orZeroI x.updated_at ≤ rin.deleted_at.getD 0) := by
  cases h : truthyI x.updated_at <;> simp [tombApply, h, ge_iff_le]

theorem rowEffect_tomb_apply (env : MergeEnv) (now : Int) (rin x : Rec)
    (hdel : truthyI rin.deleted_at = true) (hta : tombApply rin x = true) :
    rowEffect env now rin x =
      { x with deleted_at := some (rin.deleted_at.getD 0),
               updated_at := some (rin.deleted_at.getD 0) } := by
  simp only [rowEffect, hdel, if_true, hta]

theorem rowEffect_tomb_skip (env : MergeEnv) (now : Int) (rin x : Rec)
    (hdel : truthyI rin.deleted_at = true) (hta : tombApply rin x = false) :
    rowEffect env now rin x = x := by
  simp only [rowEffect, hdel, if_true, hta, Bool.false_eq_true, if_false]

theorem rowEffect_eq_changed (env : MergeEnv) (now : Int) (rin x : Rec)
    (hlive : truthyI rin.deleted_at = false)
    (heq : orZeroI rin.updated_at = orZeroI x.updated_at)
    (hec : eqChanged env rin x = true) :
    rowEffect env now rin x =
      overwriteFrom { merged1E env rin x with updated_at := some now } x := by
  simp only [rowEffect, hlive, Bool.false_eq_true, if_false]
  rw [if_neg (by omega), if_pos heq, hec, if_pos rfl]

theorem rowEffect_eq_skip (env : MergeEnv) (now : Int) (rin x : Rec)
    (hlive : truthyI rin.deleted_at = false)
    (heq : orZeroI rin.updated_at = orZeroI x.updated_at)
    (hec : eqChanged env rin x = false) :
    rowEffect env now rin x = x := by
  simp only [rowEffect, hlive, Bool.false_eq_true, if_false]
  rw [if_neg (by omega), if_pos heq, hec]
  simp

theorem rowEffect_lt (env : MergeEnv) (now : Int) (rin x : Rec)
    (hlive : truthyI rin.deleted_at = false)
    (hlt : orZeroI rin.updated_at < orZeroI x.updated_at) :
    rowEffect env now rin x = x := by
  simp only [rowEffect, hlive, Bool.false_eq_true, if_false]
  rw [if_neg (by omega), if_neg (by omega)]

theorem rowEffect_deleted_stale (env : MergeEnv) (now : Int) (rin x : Rec)
    (hlive : truthyI rin.deleted_at = false)
    (hstale : orZeroI rin.updated_at ≤ orZeroI x.updated_at) :
    (rowEffect env now rin x).deleted_at = x.deleted_at := by
  by_cases heq : orZeroI rin.updated_at = orZeroI x.updated_at
  · by_cases hec : eqChanged env rin x = true
    · rw [rowEffect_eq_changed env now rin x hlive heq hec]
      show (merged1E env rin x).deleted_at = x.deleted_at
      exact (merged1E_fields env rin x).2.2.2.2.2
    · rw [rowEffect_eq_skip env now rin x hlive heq (by simpa using hec)]
  · rw [rowEffect_lt env now rin x hlive (by omega)]

theorem statOf_none_tomb (env : MergeEnv) (rin : Rec)
    (hdel : truthyI rin.deleted_at = true) :
    statOf env rin none = { skipped := 1 } := by
  simp only [statOf, hdel, if_true]

theorem statOf_tomb_apply (env : MergeEnv) (rin x : Rec)
    (hdel : truthyI rin.deleted_at = true) (hta : tombApply rin x = true) :
    statOf env rin (some x) = { deleted := 1 } := by
  simp only [statOf, hdel, if_true, hta]

theorem statOf_tomb_skip (env : MergeEnv) (rin x : Rec)
    (hdel : truthyI rin.deleted_at = true) (hta : tombApply rin x = false) :
    statOf env rin (some x) = { skipped := 1 } := by
  simp only [statOf, hdel, if_true, hta, Bool.false_eq_true, if_false]

theorem statOf_eq_updated (env : MergeEnv) (rin x : Rec)
    (hlive : truthyI rin.deleted_at = false)
    (heq : orZeroI rin.updated_at = orZeroI x.updated_at)
    (hec : eqChanged env rin x = true) :
    statOf env rin (some x) =
      { updated := 1, images_copied := copiedFlag env rin x.image_hash } := by
  simp only [statOf, hlive, Bool.false_eq_true, if_false]
  rw [if_neg (by omega), if_pos heq, hec, if_pos rfl]

theorem statOf_eq_skip (env : MergeEnv) (rin x : Rec)
    (hlive : truthyI rin.deleted_at = false)
    (heq : orZeroI rin.updated_at = orZeroI x.updated_at)
    (hec : eqChanged env rin x = false) :
    statOf env rin (some x) = { skipped := 1 } := by
  simp only [statOf, hlive, Bool.false_eq_true, if_false]
  rw [if_neg (by omega), if_pos heq, hec]
  rw [if_neg (by simp), copiedFlag_zero env rin x hec]

theorem valStrEmpty_iff (w : Val) : valStrEmpty w = true ↔ w = Val.str "" := by
  cases w with
  | str s => simp [valStrEmpty]
  | int n => simp [valStrEmpty]

theorem adoptB_iff (vin vlc : Option Val) :
    adoptB vin vlc = true ↔
      vin ≠ none ∧ (vlc = none ∨ vlc = some (Val.str "") ∨ vin ≠ vlc) := by
  cases vin with
  | none => simp [adoptB]
  | some v =>
    cases vlc with
    | none => simp [adoptB]
    | some w =>
      simp only [adoptB, Bool.or_eq_true, valStrEmpty_iff, bne_iff_ne, ne_eq,
        Option.some.injEq, reduceCtorEq, not_false_eq_true, true_and, false_or]

theorem adoptF_ne_none (vin vlc : Option Val) (h : vin ≠ none ∨ vlc ≠ none) :
    adoptF vin vlc ≠ none := by
  unfold adoptF
  by_cases hb : adoptB vin vlc = true
  · rw [if_pos hb]
    cases vin with
    | none => simp [adoptB] at hb
    | some v => simp
  · rw [if_neg hb]
    cases vlc with
    | none =>
      rcases h with h | h
      · cases vin with
        | none => exact absurd rfl h
        | some v => simp [adoptB] at hb
      · exact absurd rfl h
    | some w => simp

/-! ### Staging, id synthesis and counter-partition helpers -/

theorem open_incoming_db_error (files : List String)
    (h : ∀ f ∈ files, isDbName f = false) :
    open_incoming_db files =
      Except.error "No SQLite DB found in the imported archive." := by
  have hsub : ∀ (q : String → Bool) (l : List String),
      (∀ f ∈ l, f ∈ files) →
      (∀ f, isDbName f = false → q f = false) → l.filter q = [] := by
    intro q l hl hq
    rw [List.filter_eq_nil_iff]
    intro f hf
    rw [hq f (h f (hl f hf))]
    simp
  have hroot : ∀ f ∈ files.filter (fun p => !(p.toList.contains '/')), f ∈ files := by
    intro f hf
    exact (List.mem_filter.mp hf).1
  have hdb : ∀ f : String, isDbName f = false → (f.endsWith ".db") = false := by
    intro f hf
    simp only [isDbName, Bool.or_eq_false_iff] at hf
    exact hf.1.1
  have hsq : ∀ f : String, isDbName f = false → (f.endsWith ".sqlite") = false := by
    intro f hf
    simp only [isDbName, Bool.or_eq_false_iff] at hf
    exact hf.1.2
  have hsq3 : ∀ f : String, isDbName f = false → (f.endsWith ".sqlite3") = false := by
    intro f hf
    simp only [isDbName, Bool.or_eq_false_iff] at hf
    exact hf.2
  have hself : ∀ f ∈ files, f ∈ files := fun f hf => hf
  simp only [open_incoming_db]
  rw [hsub _ _ hroot hdb, hsub _ _ hroot hsq, hsub _ _ hroot hsq3,
    hsub _ _ hself hdb, hsub _ _ hself hsq, hsub _ _ hself hsq3]
  rfl

theorem rowsMapGo_counter (gen : Nat → String) :
    ∀ (rows : List Rec) (m : List (String × Rec)) (n : Nat),
    (rowsMapGo gen rows m n).2 = n + rows.countP (fun r => r.id == "")
  | [], m, n => by simp [rowsMapGo]
  | r :: rs, m, n => by
    simp only [rowsMapGo, List.countP_cons]
    rw [rowsMapGo_counter gen rs]
    by_cases h : (r.id == "") = true
    · rw [if_pos h, if_pos h]
      omega
    · rw [if_neg h, if_neg h]
      omega

theorem assignedKeys_length (gen : Nat → String) :
    ∀ (rows : List Rec) (n : Nat), (assignedKeys gen rows n).length = rows.length
  | [], _ => rfl
  | _ :: rs, n => by
    simp only [assignedKeys, List.length_cons]
    rw [assignedKeys_length gen rs]

theorem assignedKeys_getq (gen : Nat → String) :
    ∀ (rows : List Rec) (n i : Nat),
    (assignedKeys gen rows n)[i]? = (rows[i]?).map (fun r =>
      if r.id == "" then gen (n + (rows.take i).countP (fun q => q.id == "")) else r.id)
  | [], n, i => rfl
  | r :: rs, n, 0 => by
    simp [assignedKeys]
  | r :: rs, n, i + 1 => by
    simp only [assignedKeys, List.getElem?_cons_succ, List.take_succ_cons,
      List.countP_cons]
    rw [assignedKeys_getq gen rs _ i]
    cases hq : rs[i]? with
    | none => rfl
    | some q =>
      simp only [Option.map_some']
      by_cases hqid : (q.id == "") = true
      · rw [if_pos hqid, if_pos hqid]
        by_cases hr : (r.id == "") = true
        · rw [if_pos hr, if_pos hr]
          exact congrArg (fun t => some (gen t)) (by omega)
        · rw [if_neg hr, if_neg hr]
          exact congrArg (fun t => some (gen t)) (by omega)
      · rw [if_neg hqid, if_neg hqid]

theorem rowsMapGo_zip (gen : Nat → String) :
    ∀ (rows : List Rec) (m : List (String × Rec)) (n : Nat),
    (assignedKeys gen rows n).Nodup →
    (∀ k ∈ assignedKeys gen rows n, ∀ p ∈ m, p.1 ≠ k) →
    (rowsMapGo gen rows m n).1 =
      m ++ List.zipWith (fun k r => (k, if r.id == "" then { r with id := k } else r))
        (assignedKeys gen rows n) rows
  | [], m, n, _, _ => by simp [rowsMapGo, assignedKeys]
  | r :: rs, m, n, hnd, hfresh => by
    have hk0 : (if r.id == "" then gen n else r.id) ∈ assignedKeys gen (r :: rs) n := by
      simp [assignedKeys]
    have hd : (if r.id == "" then { r with id := gen n } else r).id =
        (if r.id == "" then gen n else r.id) := by
      by_cases h : (r.id == "") = true
      · rw [if_pos h, if_pos h]
      · rw [if_neg h, if_neg h]
    simp only [rowsMapGo]
    rw [dinsert_fresh _ _ _ (by
      intro p hp
      rw [hd]
      exact hfresh _ hk0 p hp)]
    simp only [assignedKeys] at hnd
    have hnd2 := List.nodup_cons.mp hnd
    rw [rowsMapGo_zip gen rs _ _ hnd2.2 (by
      intro k hk p hp
      rcases List.mem_append.mp hp with hp1 | hp2
      · exact hfresh k
          (show k ∈ assignedKeys gen (r :: rs) n from List.mem_cons_of_mem _ hk) p hp1
      · rw [List.mem_singleton.mp hp2]
        show (if r.id == "" then { r with id := gen n } else r).id ≠ k
        rw [hd]
        intro hc
        exact hnd2.1 (by rw [hc]; exact hk))]
    rw [List.append_assoc]
    simp only [assignedKeys, List.zipWith_cons_cons, List.singleton_append, hd]
    by_cases hrc : (r.id == "") = true
    · simp only [if_pos hrc]
    · simp only [if_neg hrc]

theorem rows_map_zip (gen : Nat → String) (rows : List Rec) (n : Nat)
    (hnd : (assignedKeys gen rows n).Nodup) :
    (rows_map gen rows n).1 =
      List.zipWith (fun k r => (k, if r.id == "" then { r with id := k } else r))
        (assignedKeys gen rows n) rows := by
  unfold rows_map
  rw [rowsMapGo_zip gen rows [] n hnd (by intro k _ p hp; simp at hp)]
  rfl

theorem sum_four_one :
    ∀ (l : List (String × Rec)) (f g h k : (String × Rec) → Nat),
    (∀ p ∈ l, f p + g p + h p + k p = 1) →
    (l.map f).sum + (l.map g).sum + (l.map h).sum + (l.map k).sum = l.length
  | [], _, _, _, _, _ => rfl
  | p :: ps, f, g, h, k, hone => by
    simp only [List.map_cons, List.sum_cons, List.length_cons]
    have hrec := sum_four_one ps f g h k (fun q hq => hone q (by simp [hq]))
    have hp := hone p (by simp)
    omega

theorem statOf_four_sum (env : MergeEnv) (rin : Rec) (rl : Option Rec) :
    (statOf env rin rl).inserted + (statOf env rin rl).updated +
      (statOf env rin rl).deleted + (statOf env rin rl).skipped = 1 := by
  cases rl with
  | none =>
    simp only [statOf]
    split <;> rfl
  | some x =>
    simp only [statOf]
    split
    · split <;> rfl
    · split
      · rfl
      · split
        · split <;> rfl
        · rfl

/-! ## Concrete instances -/

/-- A filesystem with no readable files and no resolvable images. -/
def envNone : MergeEnv :=
  { content := fun _ => none
    hashF := fun _ => "H"
    hashNE := fun _ => (by decide : ("H" : String) ≠ "")
    resolveImg := fun _ => none }

/-- A filesystem on which every path holds the same bytes. -/
def envSame : MergeEnv :=
  { content := fun _ => some "BYTES"
    hashF := fun _ => "H"
    hashNE := fun _ => (by decide : ("H" : String) ≠ "")
    resolveImg := fun _ => none }

/-- A uuid source (unused on runs where every row carries an id). -/
def genC : Nat → String := fun _ => "g"

/-- An injective uuid source: the n-th fresh id is n+1 repetitions of u. -/
def genR (n : Nat) : String := String.mk (List.replicate (n + 1) (Char.ofNat 117))

theorem genR_inj : Function.Injective genR := by
  intro a b hab
  have hdata : List.replicate (a + 1) (Char.ofNat 117) =
      List.replicate (b + 1) (Char.ofNat 117) := congrArg String.data hab
  have hlen := congrArg List.length hdata
  simp only [List.length_replicate] at hlen
  omega

def recA5 : Rec := { id := "a", updated_at := some 1 }

def recB5 : Rec := { id := "b", updated_at := some 1 }


/-! ## The claims -/

/-- C5: the spec promises that every live incoming record whose id is absent
locally is inserted and counted, with no loss of non-conflicting records.  The
code's `_upsert_local` tests `conn.total_changes` — a connection-lifetime
counter — instead of the `UPDATE` statement's own row count, so once any
earlier write has touched the connection the `INSERT OR IGNORE` is never
reached.  Two fresh records merged into an empty store: both are counted as
inserted, but only the first one is in the store afterwards — the second is
silently dropped. -/
theorem C5_insert_loss :
    (merge_zip_into_local envNone genC 7 [recA5, recB5]
      (Conn.mk [] 0) [] 0).1.stats.inserted = 2 ∧
    truthyI recB5.deleted_at = false ∧
    getRow [] recB5.id = none ∧
    getRow (merge_zip_into_local envNone genC 7 [recA5, recB5]
      (Conn.mk [] 0) [] 0).1.conn.rows recB5.id = none := by decide

/-- C8: on the archive path the temporary extraction directory is removed on
every exit, and an archive containing no SQLite store file makes the merge
fail with the staging error while the local store and image directory are
left untouched. -/
theorem C8_staging_cleanup (env : MergeEnv) (gen : Nat → String) (now : Int)
    (files : List String) (dbOf : String → List Rec)
    (conn : Conn) (imgs : List String) (n : Nat) :
    (mergeZipTop env gen now files dbOf conn imgs n).tempdirRemoved = true ∧
    ((∀ f ∈ files, isDbName f = false) →
      (mergeZipTop env gen now files dbOf conn imgs n).result =
        Except.error "No SQLite DB found in the imported archive." ∧
      (mergeZipTop env gen now files dbOf conn imgs n).conn = conn ∧
      (mergeZipTop env gen now files dbOf conn imgs n).imgs = imgs) := by
  constructor
  · unfold mergeZipTop
    cases open_incoming_db files <;> rfl
  · intro h
    simp only [mergeZipTop, open_incoming_db_error files h]
    exact ⟨trivial, trivial, trivial⟩

/-- C10: every incoming dictionary entry contributes exactly one to exactly
one of the four counters inserted, updated, deleted and skipped, so after a
pass over stores whose rows all carry distinct nonempty ids their sum is the
number of incoming records; images_copied accumulates separately as the sum
of the per-entry image-copy contributions. -/
theorem C10_counter_partition (env : MergeEnv) (gen : Nat → String) (now : Int)
    (incRows : List Rec) (conn0 : Conn) (imgs0 : List String) (n0 : Nat)
    (hi1 : ∀ r ∈ incRows, r.id ≠ "") (hi2 : (incRows.map Rec.id).Nodup)
    (hl1 : ∀ r ∈ conn0.rows, r.id ≠ "") (hl2 : (conn0.rows.map Rec.id).Nodup) :
    (∀ (rin : Rec) (rl : Option Rec),
      (statOf env rin rl).inserted + (statOf env rin rl).updated +
        (statOf env rin rl).deleted + (statOf env rin rl).skipped = 1) ∧
    (merge_zip_into_local env gen now incRows conn0 imgs0 n0).1.stats.inserted +
      (merge_zip_into_local env gen now incRows conn0 imgs0 n0).1.stats.updated +
      (merge_zip_into_local env gen now incRows conn0 imgs0 n0).1.stats.deleted +
      (merge_zip_into_local env gen now incRows conn0 imgs0 n0).1.stats.skipped
      = incRows.length ∧
    (merge_zip_into_local env gen now incRows conn0 imgs0 n0).1.stats.images_copied =
      ((pairsOf incRows).map (fun p =>
        (statOf env p.2 (dget (pairsOf conn0.rows) p.1)).images_copied)).sum := by
  refine ⟨fun rin rl => statOf_four_sum env rin rl, ?_, ?_⟩
  · rw [merge_char env gen now incRows conn0 imgs0 n0 hi1 hi2 hl1 hl2]
    dsimp only
    rw [statsFold_inserted, statsFold_updated, statsFold_deleted, statsFold_skipped]
    have hz : Stats.inserted {} = 0 ∧ Stats.updated {} = 0 ∧ Stats.deleted {} = 0 ∧
        Stats.skipped {} = 0 := ⟨rfl, rfl, rfl, rfl⟩
    rw [hz.1, hz.2.1, hz.2.2.1, hz.2.2.2]
    simp only [Nat.zero_add]
    have hlen : (pairsOf incRows).length = incRows.length := by
      simp [pairsOf]
    rw [← hlen]
    exact sum_four_one (pairsOf incRows) _ _ _ _
      (fun p _ => statOf_four_sum env p.2 (dget (pairsOf conn0.rows) p.1))
  · rw [merge_char env gen now incRows conn0 imgs0 n0 hi1 hi2 hl1 hl2]
    dsimp only
    rw [statsFold_images]
    exact Nat.zero_add _

theorem C10_counter_partition_w :
    (merge_zip_into_local envNone genC 7 [recA5, recB5]
        (Conn.mk [] 0) [] 0).1.stats.inserted +
      (merge_zip_into_local envNone genC 7 [recA5, recB5]
        (Conn.mk [] 0) [] 0).1.stats.updated +
      (merge_zip_into_local envNone genC 7 [recA5, recB5]
        (Conn.mk [] 0) [] 0).1.stats.deleted +
      (merge_zip_into_local envNone genC 7 [recA5, recB5]
        (Conn.mk [] 0) [] 0).1.stats.skipped
      = [recA5, recB5].length :=
  (C10_counter_partition envNone genC 7 [recA5, recB5] (Conn.mk [] 0) [] 0
    (by decide) (by decide) (by decide) (by decide)).2.1

theorem fieldChanged_of_eqChanged_false (env : MergeEnv) (rin x : Rec)
    (h : eqChanged env rin x = false) : fieldChanged rin x = false := by
  cases hres : env.resolveImg rin with
  | none => simpa only [eqChanged, hres] using h
  | some src =>
    simp only [eqChanged, hres] at h
    split at h
    · simp at h
    · exact h

theorem fieldChanged_false_parts (rin x : Rec) (h : fieldChanged rin x = false) :
    adoptB rin.sold_date x.sold_date = false ∧
    adoptB rin.sold_price x.sold_price = false ∧
    adoptB rin.name x.name = false ∧
    adoptB rin.location x.location = false ∧
    adoptB rin.buy_price x.buy_price = false := by
  simp only [fieldChanged, Bool.or_eq_false_iff] at h
  exact ⟨h.1.1.1.1, h.1.1.1.2, h.1.1.2, h.1.2, h.2⟩

theorem adoptB_false_keeps (vin vlc : Option Val) (hb : adoptB vin vlc = false)
    (h : vin ≠ none ∨ vlc ≠ none) : vlc ≠ none := by
  intro hl
  rcases h with h | h
  · cases hv : vin with
    | none => exact h hv
    | some v =>
      rw [hv, hl] at hb
      exact absurd hb (by simp [adoptB])
  · exact h hl

/-- C2: tombstone handling of the merge loop: an incoming tombstone for an id
absent locally changes nothing for that id and contributes one skip; for an id
present locally it stamps the local row's deleted_at and updated_at with the
tombstone timestamp and contributes one delete when the local updated_at is
falsy or not newer than the tombstone, and otherwise leaves the row unchanged
contributing one skip; the returned counters are the fold of these per-entry
contributions. -/
theorem C2_tombstone_handling (env : MergeEnv) (gen : Nat → String) (now : Int)
    (incRows : List Rec) (conn0 : Conn) (imgs0 : List String) (n0 : Nat)
    (hi1 : ∀ r ∈ incRows, r.id ≠ "") (hi2 : (incRows.map Rec.id).Nodup)
    (hl1 : ∀ r ∈ conn0.rows, r.id ≠ "") (hl2 : (conn0.rows.map Rec.id).Nodup)
    (r : Rec) (hr : r ∈ incRows) (hdel : truthyI r.deleted_at = true) :
    (getRow conn0.rows r.id = none →
      getRow (merge_zip_into_local env gen now incRows conn0 imgs0 n0).1.conn.rows r.id
        = none ∧
      statOf env r none = { skipped := 1 }) ∧
    (∀ x, getRow conn0.rows r.id = some x →
      ((truthyI x.updated_at = false ∨ orZeroI x.updated_at ≤ r.deleted_at.getD 0) →
        getRow (merge_zip_into_local env gen now incRows conn0 imgs0 n0).1.conn.rows r.id
          = some { x with deleted_at := some (r.deleted_at.getD 0),
                          updated_at := some (r.deleted_at.getD 0) } ∧
        statOf env r (some x) = { deleted := 1 }) ∧
      (truthyI x.updated_at = true → r.deleted_at.getD 0 < orZeroI x.updated_at →
        getRow (merge_zip_into_local env gen now incRows conn0 imgs0 n0).1.conn.rows r.id
          = some x ∧
        statOf env r (some x) = { skipped := 1 })) ∧
    (merge_zip_into_local env gen now incRows conn0 imgs0 n0).1.stats =
      statsFold env (pairsOf conn0.rows) (pairsOf incRows) {} := by
  obtain ⟨hnone, hsome, hstats⟩ :=
    merge_row_result env gen now incRows conn0 imgs0 n0 hi1 hi2 hl1 hl2 r hr
  refine ⟨?_, ?_, hstats⟩
  · intro hx
    exact ⟨hnone hx hdel, statOf_none_tomb env r hdel⟩
  · intro x hx
    have hres := hsome x hx
    constructor
    · intro hcond
      have hta : tombApply r x = true := (tombApply_iff r x).mpr hcond
      rw [hres, rowEffect_tomb_apply env now r x hdel hta]
      exact ⟨rfl, statOf_tomb_apply env r x hdel hta⟩
    · intro hupd hlt
      have hta : tombApply r x = false := by
        by_cases h : tombApply r x = true
        · rcases (tombApply_iff r x).mp h with h1 | h2
          · rw [hupd] at h1
            exact absurd h1 (by simp)
          · omega
        · simpa using h
      rw [hres, rowEffect_tomb_skip env now r x hdel hta]
      exact ⟨rfl, statOf_tomb_skip env r x hdel hta⟩

def recC2in : Rec := { id := "a", deleted_at := some 80 }

def recC2lc : Rec := { id := "a", name := some (Val.str "n"), updated_at := some 30 }

theorem C2_tombstone_handling_w :
    truthyI recC2in.deleted_at = true ∧
    getRow [recC2lc] recC2in.id = some recC2lc ∧
    orZeroI recC2lc.updated_at ≤ recC2in.deleted_at.getD 0 ∧
    getRow (merge_zip_into_local envNone genC 9 [recC2in]
        (Conn.mk [recC2lc] 0) [] 0).1.conn.rows recC2in.id
      = some { recC2lc with deleted_at := some (recC2in.deleted_at.getD 0),
                            updated_at := some (recC2in.deleted_at.getD 0) } ∧
    statOf envNone recC2in (some recC2lc) = { deleted := 1 } :=
  ⟨by decide, by decide, by decide,
    ((C2_tombstone_handling envNone genC 9 [recC2in] (Conn.mk [recC2lc] 0) [] 0
      (by decide) (by decide) (by decide) (by decide) recC2in (by decide)
      (by decide)).2.1 recC2lc (by decide)).1 (Or.inr (by decide))⟩

def recC3in : Rec := { id := "a", updated_at := some 50 }

def recC3lc : Rec := { id := "a", updated_at := some 10, deleted_at := some 100 }

/-- C3 counterexample: a local record tombstoned at time 100 whose own
updated_at is an older 10, and an incoming live copy with updated_at 50 —
strictly below the tombstone time — is resurrected: the newer-incoming branch
compares against updated_at, not deleted_at, and overwrites the whole row,
clearing the tombstone. -/
theorem C3_resurrection_cex :
    truthyI recC3lc.deleted_at = true ∧
    truthyI recC3in.deleted_at = false ∧
    orZeroI recC3in.updated_at < recC3lc.deleted_at.getD 0 ∧
    getRow (merge_zip_into_local envNone genC 0 [recC3in]
      (Conn.mk [recC3lc] 0) [] 0).1.conn.rows "a" = some recC3in ∧
    recC3in.deleted_at = none := by decide

/-- C3 (amended): a local tombstone survives a merge with an incoming live
copy whenever the incoming updated_at is not newer than the local row's own
updated_at (the code compares updated_at with updated_at; a tombstone whose
row carries an older updated_at than the incoming copy is resurrected, as the
counterexample shows). -/
theorem C3_non_resurrection_amended (env : MergeEnv) (gen : Nat → String) (now : Int)
    (incRows : List Rec) (conn0 : Conn) (imgs0 : List String) (n0 : Nat)
    (hi1 : ∀ r ∈ incRows, r.id ≠ "") (hi2 : (incRows.map Rec.id).Nodup)
    (hl1 : ∀ r ∈ conn0.rows, r.id ≠ "") (hl2 : (conn0.rows.map Rec.id).Nodup)
    (r : Rec) (hr : r ∈ incRows) (hlive : truthyI r.deleted_at = false)
    (x : Rec) (hx : getRow conn0.rows r.id = some x)
    (hstale : orZeroI r.updated_at ≤ orZeroI x.updated_at) :
    ∃ y, getRow (merge_zip_into_local env gen now incRows conn0 imgs0 n0).1.conn.rows r.id
        = some y ∧ y.deleted_at = x.deleted_at := by
  obtain ⟨_, hsome, _⟩ :=
    merge_row_result env gen now incRows conn0 imgs0 n0 hi1 hi2 hl1 hl2 r hr
  exact ⟨rowEffect env now r x, hsome x hx,
    rowEffect_deleted_stale env now r x hlive hstale⟩

def recC3w : Rec := { id := "a", updated_at := some 50 }

def locC3w : Rec := { id := "a", updated_at := some 100, deleted_at := some 100 }

theorem C3_non_resurrection_amended_w :
    truthyI locC3w.deleted_at = true ∧
    ∃ y, getRow (merge_zip_into_local envNone genC 0 [recC3w]
        (Conn.mk [locC3w] 0) [] 0).1.conn.rows recC3w.id
      = some y ∧ y.deleted_at = locC3w.deleted_at :=
  ⟨by decide,
    C3_non_resurrection_amended envNone genC 0 [recC3w] (Conn.mk [locC3w] 0) [] 0
      (by decide) (by decide) (by decide) (by decide) recC3w (by decide) (by decide)
      locC3w (by decide) (by decide)⟩

/-- C4: with both records live and timestamps equal, the field test adopts an
incoming value exactly when it is non-null and the local one is null, the
empty string, or different; when some field or the image changed the merged
row is written with updated_at stamped to the clock and the entry counts one
update, and otherwise the row is untouched and the entry counts one skip; the
returned counters are the fold of the per-entry contributions. -/
theorem C4_equal_timestamp_merge (env : MergeEnv) (gen : Nat → String) (now : Int)
    (incRows : List Rec) (conn0 : Conn) (imgs0 : List String) (n0 : Nat)
    (hi1 : ∀ r ∈ incRows, r.id ≠ "") (hi2 : (incRows.map Rec.id).Nodup)
    (hl1 : ∀ r ∈ conn0.rows, r.id ≠ "") (hl2 : (conn0.rows.map Rec.id).Nodup)
    (r : Rec) (hr : r ∈ incRows) (hlive : truthyI r.deleted_at = false)
    (x : Rec) (hx : getRow conn0.rows r.id = some x)
    (heq : orZeroI r.updated_at = orZeroI x.updated_at) :
    (∀ vin vlc : Option Val, adoptB vin vlc = true ↔
      vin ≠ none ∧ (vlc = none ∨ vlc = some (Val.str "") ∨ vin ≠ vlc)) ∧
    (eqChanged env r x = true →
      ∃ y, getRow (merge_zip_into_local env gen now incRows conn0 imgs0 n0).1.conn.rows r.id
          = some y ∧
        y.sold_date = adoptF r.sold_date x.sold_date ∧
        y.sold_price = adoptF r.sold_price x.sold_price ∧
        y.name = adoptF r.name x.name ∧
        y.location = adoptF r.location x.location ∧
        y.buy_price = adoptF r.buy_price x.buy_price ∧
        y.updated_at = some now ∧
        statOf env r (some x) =
          { updated := 1, images_copied := copiedFlag env r x.image_hash }) ∧
    (eqChanged env r x = false →
      getRow (merge_zip_into_local env gen now incRows conn0 imgs0 n0).1.conn.rows r.id
        = some x ∧
      statOf env r (some x) = { skipped := 1 }) ∧
    (merge_zip_into_local env gen now incRows conn0 imgs0 n0).1.stats =
      statsFold env (pairsOf conn0.rows) (pairsOf incRows) {} := by
  obtain ⟨_, hsome, hstats⟩ :=
    merge_row_result env gen now incRows conn0 imgs0 n0 hi1 hi2 hl1 hl2 r hr
  refine ⟨adoptB_iff, ?_, ?_, hstats⟩
  · intro hec
    have hres := hsome x hx
    rw [hres, rowEffect_eq_changed env now r x hlive heq hec]
    obtain ⟨f1, f2, f3, f4, f5, _⟩ := merged1E_fields env r x
    exact ⟨overwriteFrom { merged1E env r x with updated_at := some now } x, rfl,
      f1, f2, f3, f4, f5, rfl, statOf_eq_updated env r x hlive heq hec⟩
  · intro hec
    rw [hsome x hx, rowEffect_eq_skip env now r x hlive heq hec]
    exact ⟨rfl, statOf_eq_skip env r x hlive heq hec⟩

def recC4in : Rec :=
  { id := "a", buy_price := some (Val.int 500),
    sold_price := some (Val.int 900), sold_date := some (Val.str "2024-05-01"),
    updated_at := some 100 }

def recC4lc : Rec :=
  { id := "a", buy_price := some (Val.int 500), updated_at := some 100 }

theorem C4_equal_timestamp_merge_w :
    adoptF recC4in.sold_price recC4lc.sold_price = some (Val.int 900) ∧
    adoptF recC4in.sold_date recC4lc.sold_date = some (Val.str "2024-05-01") ∧
    adoptF recC4in.buy_price recC4lc.buy_price = some (Val.int 500) ∧
    orZeroI recC4in.updated_at = orZeroI recC4lc.updated_at ∧
    (∃ y, getRow (merge_zip_into_local envNone genC 777 [recC4in]
        (Conn.mk [recC4lc] 0) [] 0).1.conn.rows recC4in.id
      = some y ∧
      y.sold_date = adoptF recC4in.sold_date recC4lc.sold_date ∧
      y.sold_price = adoptF recC4in.sold_price recC4lc.sold_price ∧
      y.name = adoptF recC4in.name recC4lc.name ∧
      y.location = adoptF recC4in.location recC4lc.location ∧
      y.buy_price = adoptF recC4in.buy_price recC4lc.buy_price ∧
      y.updated_at = some 777 ∧
      statOf envNone recC4in (some recC4lc) =
        { updated := 1, images_copied := copiedFlag envNone recC4in recC4lc.image_hash }) :=
  ⟨by decide, by decide, by decide, by decide,
    (C4_equal_timestamp_merge envNone genC 777 [recC4in] (Conn.mk [recC4lc] 0) [] 0
      (by decide) (by decide) (by decide) (by decide) recC4in (by decide) (by decide)
      recC4lc (by decide) (by decide)).2.1 (by decide)⟩

/-- C7: with timestamps equal, the merged row for an id never loses a
non-null value present on either side in any of the five mergeable fields:
after the pass the row carrying the id is non-null in every such field. -/
theorem C7_field_merge_monotone (env : MergeEnv) (gen : Nat → String) (now : Int)
    (incRows : List Rec) (conn0 : Conn) (imgs0 : List String) (n0 : Nat)
    (hi1 : ∀ r ∈ incRows, r.id ≠ "") (hi2 : (incRows.map Rec.id).Nodup)
    (hl1 : ∀ r ∈ conn0.rows, r.id ≠ "") (hl2 : (conn0.rows.map Rec.id).Nodup)
    (r : Rec) (hr : r ∈ incRows) (hlive : truthyI r.deleted_at = false)
    (x : Rec) (hx : getRow conn0.rows r.id = some x)
    (heq : orZeroI r.updated_at = orZeroI x.updated_at) :
    ∃ y, getRow (merge_zip_into_local env gen now incRows conn0 imgs0 n0).1.conn.rows r.id
        = some y ∧
      ((r.sold_date ≠ none ∨ x.sold_date ≠ none) → y.sold_date ≠ none) ∧
      ((r.sold_price ≠ none ∨ x.sold_price ≠ none) → y.sold_price ≠ none) ∧
      ((r.name ≠ none ∨ x.name ≠ none) → y.name ≠ none) ∧
      ((r.location ≠ none ∨ x.location ≠ none) → y.location ≠ none) ∧
      ((r.buy_price ≠ none ∨ x.buy_price ≠ none) → y.buy_price ≠ none) := by
  obtain ⟨_, hsome, _⟩ :=
    merge_row_result env gen now incRows conn0 imgs0 n0 hi1 hi2 hl1 hl2 r hr
  by_cases hec : eqChanged env r x = true
  · obtain ⟨f1, f2, f3, f4, f5, _⟩ := merged1E_fields env r x
    refine ⟨overwriteFrom { merged1E env r x with updated_at := some now } x, ?_,
      ?_, ?_, ?_, ?_, ?_⟩
    · rw [hsome x hx, rowEffect_eq_changed env now r x hlive heq hec]
    · intro h
      rw [show (overwriteFrom { merged1E env r x with updated_at := some now } x).sold_date
          = adoptF r.sold_date x.sold_date from f1]
      exact adoptF_ne_none _ _ h
    · intro h
      rw [show (overwriteFrom { merged1E env r x with updated_at := some now } x).sold_price
          = adoptF r.sold_price x.sold_price from f2]
      exact adoptF_ne_none _ _ h
    · intro h
      rw [show (overwriteFrom { merged1E env r x with updated_at := some now } x).name
          = adoptF r.name x.name from f3]
      exact adoptF_ne_none _ _ h
    · intro h
      rw [show (overwriteFrom { merged1E env r x with updated_at := some now } x).location
          = adoptF r.location x.location from f4]
      exact adoptF_ne_none _ _ h
    · intro h
      rw [show (overwriteFrom { merged1E env r x with updated_at := some now } x).buy_price
          = adoptF r.buy_price x.buy_price from f5]
      exact adoptF_ne_none _ _ h
  · have hec2 : eqChanged env r x = false := by simpa using hec
    obtain ⟨b1, b2, b3, b4, b5⟩ :=
      fieldChanged_false_parts r x (fieldChanged_of_eqChanged_false env r x hec2)
    refine ⟨x, ?_, ?_, ?_, ?_, ?_, ?_⟩
    · rw [hsome x hx, rowEffect_eq_skip env now r x hlive heq hec2]
    · exact fun h => adoptB_false_keeps _ _ b1 h
    · exact fun h => adoptB_false_keeps _ _ b2 h
    · exact fun h => adoptB_false_keeps _ _ b3 h
    · exact fun h => adoptB_false_keeps _ _ b4 h
    · exact fun h => adoptB_false_keeps _ _ b5 h

def recC7in : Rec :=
  { id := "a", location := some (Val.str "L"), updated_at := some 5 }

def recC7lc : Rec :=
  { id := "a", name := some (Val.str "x"), updated_at := some 5 }

theorem C7_field_merge_monotone_w :
    recC7in.location ≠ none ∧ recC7lc.name ≠ none ∧
    ∃ y, getRow (merge_zip_into_local envNone genC 6 [recC7in]
        (Conn.mk [recC7lc] 0) [] 0).1.conn.rows recC7in.id
      = some y ∧
      ((recC7in.sold_date ≠ none ∨ recC7lc.sold_date ≠ none) → y.sold_date ≠ none) ∧
      ((recC7in.sold_price ≠ none ∨ recC7lc.sold_price ≠ none) → y.sold_price ≠ none) ∧
      ((recC7in.name ≠ none ∨ recC7lc.name ≠ none) → y.name ≠ none) ∧
      ((recC7in.location ≠ none ∨ recC7lc.location ≠ none) → y.location ≠ none) ∧
      ((recC7in.buy_price ≠ none ∨ recC7lc.buy_price ≠ none) → y.buy_price ≠ none) :=
  ⟨by decide, by decide,
    C7_field_merge_monotone envNone genC 6 [recC7in] (Conn.mk [recC7lc] 0) [] 0
      (by decide) (by decide) (by decide) (by decide) recC7in (by decide) (by decide)
      recC7lc (by decide) (by decide)⟩

def recC1tomb : Rec := { id := "a", deleted_at := some 50 }

def recC1b : Rec :=
  { id := "b", name := some (Val.str ""), updated_at := some 100 }

def locC1a : Rec := { id := "a", updated_at := some 10 }

def locC1b : Rec :=
  { id := "b", name := some (Val.str ""), updated_at := some 100 }

def st1C1 : MState :=
  (merge_zip_into_local envNone genC 100 [recC1tomb, recC1b]
    (Conn.mk [locC1a, locC1b] 0) [] 0).1

def st2C1 : MState :=
  (merge_zip_into_local envNone genC 777 [recC1tomb, recC1b] st1C1.conn st1C1.imgs 0).1

/-- C1 counterexample: a second pass over an already-merged store is not
all-skipped and does not leave the store unchanged: an applied tombstone
satisfies its own guard again and is re-counted as deleted, and a record
whose local value of a mergeable field is the empty string is re-adopted and
re-stamped with the second pass's clock, changing the row. -/
theorem C1_idempotence_cex :
    st2C1.stats.deleted = 1 ∧ st2C1.stats.updated = 1 ∧ st2C1.stats.skipped = 0 ∧
    st2C1.stats.inserted = 0 ∧ st2C1.conn.rows ≠ st1C1.conn.rows := by decide

def recC1w : Rec :=
  { id := "a", name := some (Val.str "x"), updated_at := some 10 }

def st1C1w : MState :=
  (merge_zip_into_local envNone genC 10 [recC1w] (Conn.mk [recC1w] 0) [] 0).1

def st2C1w : MState :=
  (merge_zip_into_local envNone genC 20 [recC1w] st1C1w.conn st1C1w.imgs 0).1

theorem C1_merge_idempotent_amended_w :
    st2C1w.conn.rows = st1C1w.conn.rows ∧ st2C1w.imgs = st1C1w.imgs ∧
    st2C1w.stats.inserted = 0 ∧ st2C1w.stats.updated = 0 ∧
    st2C1w.stats.images_copied = 0 ∧
    st2C1w.stats.deleted = st1C1w.stats.deleted ∧
    st2C1w.stats.skipped = [recC1w].length - st1C1w.stats.deleted :=
  C1_merge_idempotent_amended envNone genC 10 20 [recC1w] (Conn.mk [recC1w] 0) [] 0
    (by decide) (by decide) (by decide) (by decide) (by decide)
    (by
      intro r hr
      rw [List.mem_singleton] at hr
      subst hr
      exact ⟨by decide, by decide, by decide, by decide, by decide⟩)
    (fun r _ => fun p hp => Option.noConfusion hp) (by decide)
    st1C1w st2C1w rfl rfl

/-- The extension `_copy_image_into_local` actually uses for the stored name:
the preferred (or source base) name's extension, defaulted to .jpg. -/
def extUsed (prefer : Option String) (src : String) : String :=
  let e := extOf (preferOrBase prefer src)
  if e == "" then ".jpg" else e

/-- C6 counterexample: two assets with identical byte content whose original
filenames carry different extensions are stored under different names — the
stored name is the content hash plus the original extension, so it is not a
function of the bytes alone. -/
theorem C6_dedup_cex :
    envSame.content "a.jpg" = envSame.content "b.png" ∧
    (copyImage envSame [] "a.jpg" none).1 ≠ (copyImage envSame [] "b.png" none).1 := by
  decide

/-- C6 (amended): identical bytes yield the same stored name whenever the two
copies also agree on the effective extension (the hash-failure fallback to
the original name aside, the stored name is hash plus extension, not a
function of the bytes alone); and a copy whose destination name is already
present writes nothing, so content already stored is never duplicated. -/
theorem C6_dedup_amended (env : MergeEnv) (imgs : List String)
    (src1 src2 : String) (p1 p2 : Option String)
    (hc : env.content src1 = env.content src2)
    (hs : (env.content src1).isSome = true)
    (hext : extUsed p1 src1 = extUsed p2 src2) :
    (copyImage env imgs src1 p1).1 = (copyImage env imgs src2 p2).1 ∧
    (∀ src prefer, imgs.contains (copyName env src prefer) = true →
      (copyImage env imgs src prefer).2.2 = imgs) := by
  constructor
  · obtain ⟨c, hcv⟩ := Option.isSome_iff_exists.mp hs
    have h1 : sha1 env src1 = some (env.hashF c) := by
      unfold sha1
      rw [hcv]
      rfl
    have h2 : sha1 env src2 = some (env.hashF c) := by
      unfold sha1
      rw [← hc, hcv]
      rfl
    show copyName env src1 p1 = copyName env src2 p2
    simp only [copyName, h1, h2]
    have hext2 : (if extOf (preferOrBase p1 src1) == "" then ".jpg"
          else extOf (preferOrBase p1 src1)) =
        (if extOf (preferOrBase p2 src2) == "" then ".jpg"
          else extOf (preferOrBase p2 src2)) := hext
    rw [hext2]
  · intro src prefer hmem
    show (if imgs.contains (copyName env src prefer) then imgs
      else imgs ++ [copyName env src prefer]) = imgs
    rw [hmem]
    rfl

theorem C6_dedup_amended_w :
    envSame.content "a.jpg" = envSame.content "d/c.jpg" ∧
    extUsed none "a.jpg" = extUsed none "d/c.jpg" ∧
    (copyImage envSame [] "a.jpg" none).1 = (copyImage envSame [] "d/c.jpg" none).1 :=
  ⟨rfl, by decide,
    (C6_dedup_amended envSame [] "a.jpg" "d/c.jpg" none none rfl (by decide)
      (by decide)).1⟩

/-- C9: reading a store's rows: the mapping files every row under its
assigned key, writing that key into the record exactly for rows whose id is
missing; the uuid counter advances by one per id-less row, so the assigned
key of an id-less row is a fresh generated value, and a second read of the
same physical rows (continuing the counter, the synthesized ids never having
been written back) assigns the same row a different id. -/
theorem C9_id_synthesis (gen : Nat → String) (hg : Function.Injective gen)
    (rows : List Rec) (n i : Nat) (hi : i < rows.length)
    (hid : rows[i].id = "")
    (hnd : (assignedKeys gen rows n).Nodup) :
    (rows_map gen rows n).1 =
      List.zipWith (fun k r => (k, if r.id == "" then { r with id := k } else r))
        (assignedKeys gen rows n) rows ∧
    (rows_map gen rows n).2 = n + rows.countP (fun r => r.id == "") ∧
    (assignedKeys gen rows n)[i]? =
      some (gen (n + (rows.take i).countP (fun q => q.id == ""))) ∧
    (assignedKeys gen rows ((rows_map gen rows n).2))[i]? ≠
      (assignedKeys gen rows n)[i]? := by
  have hcnt : (rows_map gen rows n).2 = n + rows.countP (fun r => r.id == "") := by
    unfold rows_map
    rw [rowsMapGo_counter gen rows [] n]
  have hkey : ∀ m : Nat, (assignedKeys gen rows m)[i]? =
      some (gen (m + (rows.take i).countP (fun q => q.id == ""))) := by
    intro m
    rw [assignedKeys_getq gen rows m i, List.getElem?_eq_getElem hi]
    simp only [Option.map_some']
    rw [if_pos (by simpa using hid)]
  have hc1 : 0 < rows.countP (fun r => r.id == "") := by
    rw [List.countP_pos_iff]
    exact ⟨rows[i], List.getElem_mem hi, by simpa using hid⟩
  refine ⟨rows_map_zip gen rows n hnd, hcnt, hkey n, ?_⟩
  rw [hkey n, hkey ((rows_map gen rows n).2), hcnt]
  intro hcontra
  have heq2 := hg (Option.some.inj hcontra)
  omega

def rowsC9 : List Rec := [{ id := "" }, { id := "x" }]

theorem C9_id_synthesis_w :
    rowsC9[0].id = "" ∧
    (assignedKeys genR rowsC9 0)[0]? = some (genR 0) ∧
    (assignedKeys genR rowsC9 ((rows_map genR rowsC9 0).2))[0]? ≠
      (assignedKeys genR rowsC9 0)[0]? :=
  ⟨by decide, by decide,
    (C9_id_synthesis genR genR_inj rowsC9 0 0 (by decide) (by decide)
      (by decide)).2.2.2⟩

end Sellventory
